import Mathlib

/-!
# The retry engine of `oci-go-sdk/v45/common/retry.go`

A shallow embedding of `Retry`, `DefaultRetryPolicy`, `NoRetryPolicy` and their helpers.

Conventions of the embedding.

* A Go interface or pointer value that may be `nil` is an `Option`.
* `uint` is `Nat`: the attempt counter starts at 1 and grows by one per attempt.
* `time.Duration` and instants are integers counting nanoseconds.
* A finite `float64` is the rational number it stands for; the `float64` addition of the
  backoff rounds its exact result as IEEE-754 binary64 does (`float64`).
* A runtime fault (a Go panic) is the `error` side of `Except Panic`.
* The operation, the clock and the random source are effectful in Go. Their effects are
  indexed by the attempt during which they happen: `operation k body` is what the
  invocation made by attempt `k` does when handed `body`, `now k` is what `time.Now()`
  reads during attempt `k`.
* `Retry` is the body of the goroutine: its value is the `retrierResult` sent on
  `retrierChannel`, together with the list of observable steps taken on the way.
  The race of that channel against `ctx.Done()` in the final `select` is concurrent and
  is not part of the embedding. The loop may run forever (unlimited attempts), so it carries a fuel argument that
  bounds the number of attempts; `none` means the fuel ran out.
* Logging (`Debugln`), the `extraHeaders` map and the deferred `Close` of the body do not
  bear on what `Retry` sends and are left out.
-/

namespace Common

/-! ## Basic types -/

/-- A `time.Duration`: a signed number of nanoseconds. -/
abbrev Duration := Int

/-- The constant `time.Second`. -/
def Second : Duration := 1000000000

/-- The value carried by a runtime fault. -/
abbrev Panic := String

/-- The part of `*http.Response` the retry engine reads. -/
structure HTTPResponse where
  StatusCode : Int
deriving DecidableEq, Repr

/-- The interface `OCIResponse`: `HTTPResponse()` returns a `*http.Response`, possibly nil. -/
class OCIResponse (ρ : Type) where
  HTTPResponse : ρ → Option HTTPResponse

/-- The response type `ListEmailDomainsResponse` of package `email` (its header fields). -/
structure ListEmailDomainsResponse where
  RawResponse : Option HTTPResponse
  OpcNextPage : Option String
  OpcRequestId : Option String
deriving DecidableEq, Repr

instance : OCIResponse ListEmailDomainsResponse where
  HTTPResponse response := response.RawResponse

/-- What `IsServiceError` exposes of a service error. -/
structure ServiceError where
  GetHTTPStatusCode : Int
  GetCode : String
deriving DecidableEq, Repr

/-- Modelled from the spec: the error classifier `IsNetworkError(err) → bool` and
`IsServiceError(err) → (ServiceError, bool)`, whose Go definitions are outside the files at
hand. It is a parameter of the default policy. -/
structure ErrorClassifier (ε : Type) where
  networkError : ε → Bool
  serviceError : ε → Option ServiceError

/-- `IsNetworkError(err)` on a Go `error` value; an absent error is in no class. -/
def ErrorClassifier.IsNetworkError {ε : Type} (C : ErrorClassifier ε) : Option ε → Bool
  | none => false
  | some err => C.networkError err

/-- `IsServiceError(err)` on a Go `error` value; an absent error is in no class. -/
def ErrorClassifier.IsServiceError {ε : Type} (C : ErrorClassifier ε) : Option ε → Option ServiceError
  | none => none
  | some err => C.serviceError err

/-- Modelled from the spec: the classes of the error classifier are disjoint. An error is a
transient network-level failure or a service-level error decoded from a response, never both. -/
def ErrorClassifier.classesDisjoint {ε : Type} (C : ErrorClassifier ε) : Prop :=
  ∀ err, C.networkError err = true → C.serviceError err = none

/-- `UnlimitedNumAttemptsValue = uint(0)`. -/
def UnlimitedNumAttemptsValue : Nat := 0

/-- `generatedRetryTokenLength = 32`. -/
def generatedRetryTokenLength : Nat := 32

/-- The struct `OCIOperationResponse`. -/
structure OCIOperationResponse (ρ ε : Type) where
  Response : Option ρ
  Error : Option ε
  AttemptNumber : Nat
deriving DecidableEq, Repr

/-- `NewOCIOperationResponse`. -/
def NewOCIOperationResponse {ρ ε : Type} (response : Option ρ) (err : Option ε) (attempt : Nat) :
    OCIOperationResponse ρ ε :=
  { Response := response, Error := err, AttemptNumber := attempt }

/-- The struct `RetryPolicy`. Its two functions are Go funcs, which may fault. -/
structure RetryPolicy (ρ ε : Type) where
  MaximumNumberAttempts : Nat
  ShouldRetryOperation : OCIOperationResponse ρ ε → Except Panic Bool
  NextDuration : OCIOperationResponse ρ ε → Except Panic Duration

/-- `NewRetryPolicy`. -/
def NewRetryPolicy {ρ ε : Type} (attempts : Nat)
    (retryOperation : OCIOperationResponse ρ ε → Except Panic Bool)
    (nextDuration : OCIOperationResponse ρ ε → Except Panic Duration) : RetryPolicy ρ ε :=
  { MaximumNumberAttempts := attempts
    ShouldRetryOperation := retryOperation
    NextDuration := nextDuration }

/-- `NoRetryPolicy`. -/
def NoRetryPolicy {ρ ε : Type} : RetryPolicy ρ ε :=
  NewRetryPolicy 1 (fun _ => .ok false) (fun _ => .ok (0 * Second))

/-! ## The default policy -/

/-- The map `defaultRetryStatusCodeMap`, keyed by `HTTPStatus{code, message}`. -/
def defaultRetryStatusCodeMap (code : Int) (message : String) : Option Bool :=
  if code = 409 ∧ message = "IncorrectState" then some true
  else if code = 429 ∧ message = "TooManyRequests" then some true
  else if code = 501 ∧ message = "MethodNotImplemented" then some false
  else none

/-- The expression `r.Response.HTTPResponse().StatusCode`: it faults when the response, or
the `*http.Response` inside it, is nil. -/
def StatusCode {ρ : Type} [OCIResponse ρ] : Option ρ → Except Panic Int
  | none => .error "invalid memory address or nil pointer dereference"
  | some response =>
    match OCIResponse.HTTPResponse response with
    | none => .error "invalid memory address or nil pointer dereference"
    | some raw => .ok raw.StatusCode

/-- The tail of the closure `defaultRetryPolicy`, from `if IsNetworkError(r.Error)` on. -/
def defaultRetryPolicyError {ρ ε : Type} [OCIResponse ρ] (C : ErrorClassifier ε)
    (r : OCIOperationResponse ρ ε) : Except Panic Bool :=
  if C.IsNetworkError r.Error then .ok true
  else
    match C.IsServiceError r.Error with
    | some err =>
      match defaultRetryStatusCodeMap err.GetHTTPStatusCode err.GetCode with
      | some shouldRetry => .ok shouldRetry
      | none =>
        match StatusCode r.Response with
        | .error p => .error p
        | .ok status => .ok (decide (500 ≤ status ∧ status < 600))
    | none => .ok false

/-- The closure `defaultRetryPolicy` of `DefaultRetryPolicy`. -/
def defaultRetryPolicy {ρ ε : Type} [OCIResponse ρ] (C : ErrorClassifier ε)
    (r : OCIOperationResponse ρ ε) : Except Panic Bool :=
  if r.Error.isNone then
    match StatusCode r.Response with
    | .error p => .error p
    | .ok status =>
      if 199 < status ∧ status < 300 then .ok false
      else defaultRetryPolicyError C r
  else defaultRetryPolicyError C r

/-- The conversion `time.Duration(x)` of a float: the fraction is dropped (truncation toward
zero). A finite `float64` is the rational number it stands for. -/
def truncate (x : ℚ) : Duration := Int.tdiv x.num x.den

/-- Rounding to the nearest integer, a tie going to the even one. -/
def roundHalfEven (q : ℚ) : Int :=
  if q - ⌊q⌋ < 1 / 2 then ⌊q⌋
  else if 1 / 2 < q - ⌊q⌋ then ⌊q⌋ + 1
  else if ⌊q⌋ % 2 = 0 then ⌊q⌋
  else ⌊q⌋ + 1

/-- The `float64` that the exact result `x` of an arithmetic operation is rounded to: Go's
`float64` is IEEE-754 binary64, whose operations round to the nearest number with a 53-bit
significand, a tie going to the even significand. The exponent range is not bounded here (the
sums of the backoff lie between 1 and 31). -/
def float64 (x : ℚ) : ℚ :=
  if x = 0 then 0
  else roundHalfEven (x / 2 ^ (Int.log 2 |x| - 52)) * 2 ^ (Int.log 2 |x| - 52)

/-- The float `math.Pow(2, float64(r.AttemptNumber-1))`; the subtraction is the `uint` one,
which wraps at 0. Up to the exponent 1023 the power is a `float64`; beyond, Go has `+Inf`,
which compares with `maxSleepBetween` as the exact power does. -/
def sleepTime (attemptNumber : Nat) : ℚ :=
  if attemptNumber = 0 then (2 : ℚ) ^ (2 ^ 64 - 1) else (2 : ℚ) ^ (attemptNumber - 1)

/-- The local `maxSleepBetween := 30.0`. -/
def maxSleepBetween : ℚ := 30

/-- The closure `exponentialBackoffWithJitter` of `DefaultRetryPolicy`; `jitter` is the value
`rand.Float64()` returns. The sum is a `float64` addition, the conversion to `time.Duration`
comes before the multiplication by `time.Second`. -/
def exponentialBackoffWithJitter {ρ ε : Type} (jitter : ℚ) (r : OCIOperationResponse ρ ε) :
    Duration :=
  if sleepTime r.AttemptNumber < maxSleepBetween then
    truncate (float64 (sleepTime r.AttemptNumber + jitter)) * Second
  else truncate (float64 (maxSleepBetween + jitter)) * Second

/-- `DefaultRetryPolicy`. The global random source is the sequence `rand`: `rand k` is the
value `rand.Float64()` returns when it is called for attempt `k`. -/
def DefaultRetryPolicy {ρ ε : Type} [OCIResponse ρ] (C : ErrorClassifier ε) (rand : Nat → ℚ) :
    RetryPolicy ρ ε :=
  NewRetryPolicy 8 (defaultRetryPolicy C)
    (fun r => .ok (exponentialBackoffWithJitter (rand r.AttemptNumber) r))

/-- `shouldContinueIssuingRequests`. -/
def shouldContinueIssuingRequests (current maximum : Nat) : Bool :=
  maximum == UnlimitedNumAttemptsValue || decide (current ≤ maximum)

/-! ## Requests and binary bodies -/

/-- The origin argument of `Seek`: `io.SeekStart`, `io.SeekCurrent`, `io.SeekEnd`. -/
inductive Whence where
  | SeekStart
  | SeekCurrent
  | SeekEnd
deriving DecidableEq, Repr

/-- Modelled from the spec: the binary payload `SeekableBody` with its byte stream, whether
the stream can be rewound, and its read offset. The Go type `OCIReadSeekCloser` and its
methods `Seek` and `Seekable` are declared outside the files at hand. -/
structure OCIReadSeekCloser where
  stream : List Nat
  isSeekable : Bool
  currentOffset : Int
deriving DecidableEq, Repr

/-- Modelled from the spec: `Seekable() → bool`, on a pointer that may be nil (a request
without a body hands over nil, and then nothing is captured). -/
def Seekable : Option OCIReadSeekCloser → Bool
  | none => false
  | some rsc => rsc.isSeekable

/-- Modelled from the spec: `Seek(offset, origin) → newOffset | error`. A stream that cannot
be rewound, or a position before the start, is an error and leaves the body as it was. -/
def OCIReadSeekCloser.Seek (rsc : OCIReadSeekCloser) (offset : Int) (whence : Whence) :
    OCIReadSeekCloser × Option Int :=
  let target : Int :=
    match whence with
    | .SeekStart => offset
    | .SeekCurrent => rsc.currentOffset + offset
    | .SeekEnd => rsc.stream.length + offset
  if rsc.isSeekable ∧ 0 ≤ target then ({ rsc with currentOffset := target }, some target)
  else (rsc, none)

/-- The part of the interface `OCIRetryableRequest` that `Retry` calls: `BinaryRequestBody()`
returns the body pointer and whether the request has a binary body. -/
structure OCIRetryableRequest where
  BinaryRequestBody : Option OCIReadSeekCloser × Bool
deriving DecidableEq, Repr

/-- The request type `ListEmailDomainsRequest` of package `email`: its `BinaryRequestBody()`
is `return nil, false`. -/
def ListEmailDomainsRequest : OCIRetryableRequest :=
  { BinaryRequestBody := (none, false) }

/-- What `ctx.Deadline()` answers: the deadline, when there is one. -/
structure Context where
  Deadline : Option Int
deriving DecidableEq, Repr

/-- What one invocation of the operation does: it returns `(response, err)` or faults, and it
leaves the body stream at read offset `offset`. -/
structure Invocation (ρ ε : Type) where
  result : Except Panic (Option ρ × Option ε)
  offset : Int

/-- An `OCIOperation` as `Retry` sees it: `operation k rsc` is the invocation made by attempt
`k` with body `rsc`. -/
abbrev OCIOperation (ρ ε : Type) := Nat → Option OCIReadSeekCloser → Invocation ρ ε

/-! ## Results and observable steps -/

/-- The Go `error` values `Retry` can send: the error of the operation as it came, or one of
the errors `Retry` makes itself. -/
inductive Error (ε : Type) where
  | operation (err : ε)
  | NonSeekableRequestRetryFailure (err : Option ε)
  | DeadlineExceededByBackoff
  | panicked (r : Panic)
deriving DecidableEq, Repr

/-- The local struct `retrierResult`. -/
structure retrierResult (ρ ε : Type) where
  response : Option ρ
  err : Option (Error ε)
deriving DecidableEq, Repr

/-- The observable steps of the retry loop, in the order they happen. -/
inductive Event (ρ ε : Type) where
  | seek (curPos : Int)
  | operation (attempt : Nat) (rsc : Option OCIReadSeekCloser)
  | shouldRetryOperation (r : OCIOperationResponse ρ ε)
  | nextDuration (r : OCIOperationResponse ρ ε)
  | after (duration : Duration)
deriving DecidableEq, Repr

/-- The number of invocations of the operation in a run. -/
def invocations {ρ ε : Type} : List (Event ρ ε) → Nat
  | [] => 0
  | .operation _ _ :: tr => invocations tr + 1
  | _ :: tr => invocations tr

/-- The number of evaluations of `policy.NextDuration` in a run. -/
def nextDurations {ρ ε : Type} : List (Event ρ ε) → Nat
  | [] => 0
  | .nextDuration _ :: tr => nextDurations tr + 1
  | _ :: tr => nextDurations tr

/-- The durations the run suspended for (`<-time.After(duration)`), oldest first. -/
def sleeps {ρ ε : Type} : List (Event ρ ε) → List Duration
  | [] => []
  | .after duration :: tr => duration :: sleeps tr
  | _ :: tr => sleeps tr

/-- The invocations of the operation in a run, oldest first: the attempt that made the call
and the body it handed over. -/
def operationCalls {ρ ε : Type} (tr : List (Event ρ ε)) :
    List (Nat × Option OCIReadSeekCloser) :=
  tr.filterMap (fun e =>
    match e with
    | .operation attempt rsc => some (attempt, rsc)
    | _ => none)

/-- The attempt contexts handed to `policy.ShouldRetryOperation` in a run, oldest first. -/
def shouldRetryArguments {ρ ε : Type} (tr : List (Event ρ ε)) :
    List (OCIOperationResponse ρ ε) :=
  tr.filterMap (fun e =>
    match e with
    | .shouldRetryOperation r => some r
    | _ => none)

/-- The attempt contexts handed to `policy.NextDuration` in a run, oldest first. -/
def nextDurationArguments {ρ ε : Type} (tr : List (Event ρ ε)) :
    List (OCIOperationResponse ρ ε) :=
  tr.filterMap (fun e =>
    match e with
    | .nextDuration r => some r
    | _ => none)

/-! ## Retry -/

/-- The local `isSeekable` of `Retry` as the loop finds it. -/
def isSeekable {ρ ε : Type} (request : OCIRetryableRequest) (policy : RetryPolicy ρ ε) : Bool :=
  policy.MaximumNumberAttempts != 1 && Seekable request.BinaryRequestBody.1

/-- The local `curPos` of `Retry` as the loop finds it: `curPos, _ = rsc.Seek(0, io.SeekCurrent)`
when the body is seekable and the policy allows more than one attempt, 0 otherwise. -/
def curPos {ρ ε : Type} (request : OCIRetryableRequest) (policy : RetryPolicy ρ ε) : Int :=
  if isSeekable request policy then
    match request.BinaryRequestBody.1 with
    | some rsc => ((rsc.Seek 0 .SeekCurrent).2).getD 0
    | none => 0
  else 0

/-- The statement `rewind body once needed`: `rsc.Seek(curPos, io.SeekStart)` when seekable. -/
def rewind (seekable : Bool) (pos : Int) (rsc : Option OCIReadSeekCloser) :
    Option OCIReadSeekCloser :=
  if seekable then rsc.map (fun body => (body.Seek pos .SeekStart).1) else rsc

/-- The steps of `rewind`. -/
def rewindEvents {ρ ε : Type} (seekable : Bool) (pos : Int) : List (Event ρ ε) :=
  if seekable then [.seek pos] else []

/-- The deadline test `deadline, ok := ctx.Deadline(); ok && time.Now().Add(duration).After(deadline)`. -/
def deadlineExceeded (ctx : Context) (now : Int) (duration : Duration) : Bool :=
  match ctx.Deadline with
  | some deadline => decide (deadline < now + duration)
  | none => false

/-- The `for` loop of `Retry`, from attempt `currentOperationAttempt` on, with the statement
after the loop. `rsc` is the body, `response` and `err` are the variables of `Retry`. -/
def retryLoop {ρ ε : Type} (now : Nat → Int) (ctx : Context) (operation : OCIOperation ρ ε)
    (policy : RetryPolicy ρ ε) (isBinaryRequest seekable : Bool) (pos : Int) :
    Nat → Nat → Option OCIReadSeekCloser → Option ρ → Option ε →
      Option (retrierResult ρ ε × List (Event ρ ε))
  | 0, currentOperationAttempt, _, response, err =>
    if shouldContinueIssuingRequests currentOperationAttempt policy.MaximumNumberAttempts then none
    else some ({ response := response, err := err.map .operation }, [])
  | fuel + 1, currentOperationAttempt, rsc, response, err =>
    if shouldContinueIssuingRequests currentOperationAttempt policy.MaximumNumberAttempts then
      let rsc := rewind seekable pos rsc
      let call := operation currentOperationAttempt rsc
      let called : List (Event ρ ε) :=
        rewindEvents seekable pos ++ [.operation currentOperationAttempt rsc]
      match call.result with
      | .error p => some ({ response := none, err := some (.panicked p) }, called)
      | .ok (response, err) =>
        let operationResponse := NewOCIOperationResponse response err currentOperationAttempt
        match policy.ShouldRetryOperation operationResponse with
        | .error p =>
          some ({ response := none, err := some (.panicked p) },
            called ++ [.shouldRetryOperation operationResponse])
        | .ok false =>
          some ({ response := response, err := err.map .operation },
            called ++ [.shouldRetryOperation operationResponse])
        | .ok true =>
          if isBinaryRequest && !seekable then
            some ({ response := response, err := some (.NonSeekableRequestRetryFailure err) },
              called ++ [.shouldRetryOperation operationResponse])
          else
            match policy.NextDuration operationResponse with
            | .error p =>
              some ({ response := none, err := some (.panicked p) },
                called ++ [.shouldRetryOperation operationResponse, .nextDuration operationResponse])
            | .ok duration =>
              if deadlineExceeded ctx (now currentOperationAttempt) duration then
                some ({ response := response, err := some .DeadlineExceededByBackoff },
                  called ++ [.shouldRetryOperation operationResponse, .nextDuration operationResponse])
              else
                (retryLoop now ctx operation policy isBinaryRequest seekable pos fuel
                    (currentOperationAttempt + 1)
                    (rsc.map (fun body => { body with currentOffset := call.offset }))
                    response err).map
                  (fun out => (out.1, called ++ [.shouldRetryOperation operationResponse,
                    .nextDuration operationResponse, .after duration] ++ out.2))
    else some ({ response := response, err := err.map .operation }, [])

/-- The goroutine of `Retry`: what it sends on `retrierChannel`, and the steps it took. -/
def Retry {ρ ε : Type} (fuel : Nat) (now : Nat → Int) (ctx : Context)
    (request : OCIRetryableRequest) (operation : OCIOperation ρ ε) (policy : RetryPolicy ρ ε) :
    Option (retrierResult ρ ε × List (Event ρ ε)) :=
  retryLoop now ctx operation policy request.BinaryRequestBody.2 (isSeekable request policy)
    (curPos request policy) fuel 1 request.BinaryRequestBody.1 none none

/-- The steps that the `for` loop of `Retry` takes in its first `fuel` turns from attempt
`currentOperationAttempt` on, whether or not the loop is over by then: the same turns as
`retryLoop`, with the steps kept when more turns are to follow. -/
def retryLoopSteps {ρ ε : Type} (now : Nat → Int) (ctx : Context) (operation : OCIOperation ρ ε)
    (policy : RetryPolicy ρ ε) (isBinaryRequest seekable : Bool) (pos : Int) :
    Nat → Nat → Option OCIReadSeekCloser → List (Event ρ ε)
  | 0, _, _ => []
  | fuel + 1, currentOperationAttempt, rsc =>
    if shouldContinueIssuingRequests currentOperationAttempt policy.MaximumNumberAttempts then
      let rsc := rewind seekable pos rsc
      let call := operation currentOperationAttempt rsc
      let called : List (Event ρ ε) :=
        rewindEvents seekable pos ++ [.operation currentOperationAttempt rsc]
      match call.result with
      | .error _ => called
      | .ok (response, err) =>
        let operationResponse := NewOCIOperationResponse response err currentOperationAttempt
        match policy.ShouldRetryOperation operationResponse with
        | .error _ => called ++ [.shouldRetryOperation operationResponse]
        | .ok false => called ++ [.shouldRetryOperation operationResponse]
        | .ok true =>
          if isBinaryRequest && !seekable then
            called ++ [.shouldRetryOperation operationResponse]
          else
            match policy.NextDuration operationResponse with
            | .error _ =>
              called ++ [.shouldRetryOperation operationResponse, .nextDuration operationResponse]
            | .ok duration =>
              if deadlineExceeded ctx (now currentOperationAttempt) duration then
                called ++ [.shouldRetryOperation operationResponse,
                  .nextDuration operationResponse]
              else
                called ++ [.shouldRetryOperation operationResponse,
                  .nextDuration operationResponse, .after duration] ++
                  retryLoopSteps now ctx operation policy isBinaryRequest seekable pos fuel
                    (currentOperationAttempt + 1)
                    (rsc.map (fun body => { body with currentOffset := call.offset }))
    else []

/-- The steps that the goroutine of `Retry` takes in the first `fuel` turns of its loop. -/
def RetrySteps {ρ ε : Type} (fuel : Nat) (now : Nat → Int) (ctx : Context)
    (request : OCIRetryableRequest) (operation : OCIOperation ρ ε) (policy : RetryPolicy ρ ε) :
    List (Event ρ ε) :=
  retryLoopSteps now ctx operation policy request.BinaryRequestBody.2 (isSeekable request policy)
    (curPos request policy) fuel 1 request.BinaryRequestBody.1

/-! ## Retry tokens -/

/-- The local `alphanumericChars` of `RetryToken`. -/
def alphanumericChars : List Char :=
  "abcdefghijklmnopqrstuvwxyz0123456789ABCDEFGHIJKLMNOPQRSTUVWXYZ".toList

/-- The call `rand.Intn(n)` that makes the draw numbered `i` from the global random source:
whatever the source yields, the result lies in `[0, n)`. -/
def Intn (source : Nat → Nat) (i n : Nat) : Nat := source i % n

/-- `RetryToken`. -/
def RetryToken (source : Nat → Nat) : String :=
  String.mk ((List.range generatedRetryTokenLength).map (fun i =>
    alphanumericChars.get
      ⟨Intn source i alphanumericChars.length, Nat.mod_lt _ (by decide)⟩))

/-! ## The attempts of a run -/

section Attempts

variable {ρ ε : Type}

/-- The body as the first `k` attempts leave it, when each of them hands over to the next. -/
def bodyAfter (request : OCIRetryableRequest) (operation : OCIOperation ρ ε)
    (policy : RetryPolicy ρ ε) : Nat → Option OCIReadSeekCloser
  | 0 => request.BinaryRequestBody.1
  | k + 1 =>
    let rsc := rewind (isSeekable request policy) (curPos request policy)
      (bodyAfter request operation policy k)
    rsc.map (fun body => { body with currentOffset := (operation (k + 1) rsc).offset })

/-- The body handed to the operation by attempt `k`, for `k ≥ 1`. -/
def bodySent (request : OCIRetryableRequest) (operation : OCIOperation ρ ε)
    (policy : RetryPolicy ρ ε) (k : Nat) : Option OCIReadSeekCloser :=
  rewind (isSeekable request policy) (curPos request policy)
    (bodyAfter request operation policy (k - 1))

/-- The invocation of the operation made by attempt `k`, for `k ≥ 1`. -/
def attempt (request : OCIRetryableRequest) (operation : OCIOperation ρ ε)
    (policy : RetryPolicy ρ ε) (k : Nat) : Invocation ρ ε :=
  operation k (bodySent request operation policy k)

/-- The variables `response, err` of `Retry` after attempt `k`; both are nil before attempt 1
and after a fault. -/
def outcome (request : OCIRetryableRequest) (operation : OCIOperation ρ ε)
    (policy : RetryPolicy ρ ε) : Nat → Option ρ × Option ε
  | 0 => (none, none)
  | k + 1 =>
    match (attempt request operation policy (k + 1)).result with
    | .ok out => out
    | .error _ => (none, none)

/-- The `operationResponse` that attempt `k` builds. -/
def operationResponse (request : OCIRetryableRequest) (operation : OCIOperation ρ ε)
    (policy : RetryPolicy ρ ε) (k : Nat) : OCIOperationResponse ρ ε :=
  NewOCIOperationResponse (outcome request operation policy k).1
    (outcome request operation policy k).2 k

/-- The `duration` that attempt `k` computes; 0 when `policy.NextDuration` faults. -/
def backoff (request : OCIRetryableRequest) (operation : OCIOperation ρ ε)
    (policy : RetryPolicy ρ ε) (k : Nat) : Duration :=
  match policy.NextDuration (operationResponse request operation policy k) with
  | .ok duration => duration
  | .error _ => 0

/-- Attempt `k ≥ 1` hands over to attempt `k + 1`: the operation returns, `ShouldRetryOperation`
answers true, the loop is not stopped for a binary body it cannot rewind, `NextDuration`
returns, and the backoff does not pass the deadline. -/
def proceeds (now : Nat → Int) (ctx : Context) (request : OCIRetryableRequest)
    (operation : OCIOperation ρ ε) (policy : RetryPolicy ρ ε) (k : Nat) : Bool :=
  match (attempt request operation policy k).result with
  | .error _ => false
  | .ok (response, err) =>
    match policy.ShouldRetryOperation (NewOCIOperationResponse response err k),
      policy.NextDuration (NewOCIOperationResponse response err k) with
    | .ok true, .ok duration =>
      !(request.BinaryRequestBody.2 && !isSeekable request policy) &&
        !deadlineExceeded ctx (now k) duration
    | _, _ => false

/-- The steps of an attempt `k` that hands over to the next. -/
def attemptEvents (request : OCIRetryableRequest) (operation : OCIOperation ρ ε)
    (policy : RetryPolicy ρ ε) (k : Nat) : List (Event ρ ε) :=
  rewindEvents (isSeekable request policy) (curPos request policy) ++
    [.operation k (bodySent request operation policy k),
      .shouldRetryOperation (operationResponse request operation policy k),
      .nextDuration (operationResponse request operation policy k),
      .after (backoff request operation policy k)]

/-- The steps of the first `k` attempts, when each of them hands over to the next. -/
def runEvents (request : OCIRetryableRequest) (operation : OCIOperation ρ ε)
    (policy : RetryPolicy ρ ε) : Nat → List (Event ρ ε)
  | 0 => []
  | k + 1 => runEvents request operation policy k ++ attemptEvents request operation policy (k + 1)

end Attempts

/-! ## A universe of errors for worked examples -/

/-- Go errors for worked examples: a network timeout, a failure reported by the service with
its status code and code, and any other error. -/
inductive SampleError where
  | timeout
  | servicefailure (StatusCode : Int) (Code : String)
  | other (message : String)
deriving DecidableEq, Repr

/-- A classifier for `SampleError`: a timeout is a network error, a service failure is a
service error. -/
def sampleClassifier : ErrorClassifier SampleError where
  networkError
    | .timeout => true
    | _ => false
  serviceError
    | .servicefailure status code => some { GetHTTPStatusCode := status, GetCode := code }
    | _ => none

/-- A response of `ListEmailDomains` with the given status code. -/
def sampleResponse (status : Int) : ListEmailDomainsResponse :=
  { RawResponse := some { StatusCode := status }, OpcNextPage := none, OpcRequestId := none }

/-- A request with a binary body of three bytes, read from the start. -/
def sampleUpload (seekable : Bool) : OCIRetryableRequest :=
  { BinaryRequestBody := (some { stream := [7, 8, 9], isSeekable := seekable, currentOffset := 0 }, true) }

/-- An operation that always fails with a timeout and reads the body to its end. -/
def timeoutOperation : OCIOperation ListEmailDomainsResponse SampleError :=
  fun _ _ => { result := .ok (none, some .timeout), offset := 3 }

/-- A policy with the given attempt budget that always asks for a retry after 5 seconds. -/
def alwaysRetryPolicy (attempts : Nat) : RetryPolicy ListEmailDomainsResponse SampleError :=
  NewRetryPolicy attempts (fun _ => .ok true) (fun _ => .ok (5 * Second))

/-- An operation that returns a timeout on attempt 1 and faults on attempt 2. -/
def faultingOperation : OCIOperation ListEmailDomainsResponse SampleError :=
  fun k _ =>
    { result := if k = 1 then .ok (none, some .timeout) else .error "index out of range"
      offset := 0 }

/-! ## Lemmas on steps -/

section Lemmas

variable {ρ ε : Type}

theorem invocations_append (a b : List (Event ρ ε)) :
    invocations (a ++ b) = invocations a + invocations b := by
  induction a with
  | nil => simp [invocations]
  | cons e a ih => cases e <;> simp +arith [invocations, ih]

theorem nextDurations_append (a b : List (Event ρ ε)) :
    nextDurations (a ++ b) = nextDurations a + nextDurations b := by
  induction a with
  | nil => simp [nextDurations]
  | cons e a ih => cases e <;> simp +arith [nextDurations, ih]

theorem sleeps_append (a b : List (Event ρ ε)) : sleeps (a ++ b) = sleeps a ++ sleeps b := by
  induction a with
  | nil => simp [sleeps]
  | cons e a ih => cases e <;> simp [sleeps, ih]

theorem invocations_rewindEvents (seekable : Bool) (pos : Int) :
    invocations (rewindEvents seekable pos : List (Event ρ ε)) = 0 := by
  cases seekable <;> simp [rewindEvents, invocations]

theorem nextDurations_rewindEvents (seekable : Bool) (pos : Int) :
    nextDurations (rewindEvents seekable pos : List (Event ρ ε)) = 0 := by
  cases seekable <;> simp [rewindEvents, nextDurations]

theorem sleeps_rewindEvents (seekable : Bool) (pos : Int) :
    sleeps (rewindEvents seekable pos : List (Event ρ ε)) = [] := by
  cases seekable <;> simp [rewindEvents, sleeps]

theorem invocations_runEvents (request : OCIRetryableRequest) (operation : OCIOperation ρ ε)
    (policy : RetryPolicy ρ ε) (k : Nat) :
    invocations (runEvents request operation policy k) = k := by
  induction k with
  | zero => simp [runEvents, invocations]
  | succ k ih =>
    simp [runEvents, attemptEvents, invocations_append, invocations_rewindEvents, invocations, ih]

theorem length_sleeps_runEvents (request : OCIRetryableRequest) (operation : OCIOperation ρ ε)
    (policy : RetryPolicy ρ ε) (k : Nat) :
    (sleeps (runEvents request operation policy k)).length = k := by
  induction k with
  | zero => simp [runEvents, sleeps]
  | succ k ih =>
    simp [runEvents, attemptEvents, sleeps_append, sleeps_rewindEvents, sleeps, ih]

theorem shouldContinueIssuingRequests_mono {k n maximum : Nat} (hkn : k ≤ n)
    (h : shouldContinueIssuingRequests n maximum = true) :
    shouldContinueIssuingRequests k maximum = true := by
  simp only [shouldContinueIssuingRequests, Bool.or_eq_true, beq_iff_eq, decide_eq_true_eq] at h ⊢
  omega

theorem sleeps_runEvents (request : OCIRetryableRequest) (operation : OCIOperation ρ ε)
    (policy : RetryPolicy ρ ε) (k : Nat) :
    sleeps (runEvents request operation policy k) =
      (List.range k).map (fun i => backoff request operation policy (i + 1)) := by
  induction k with
  | zero => simp [runEvents, sleeps]
  | succ k ih =>
    simp [runEvents, attemptEvents, sleeps_append, sleeps_rewindEvents, sleeps, ih,
      List.range_succ]

theorem nextDurations_runEvents (request : OCIRetryableRequest) (operation : OCIOperation ρ ε)
    (policy : RetryPolicy ρ ε) (k : Nat) :
    nextDurations (runEvents request operation policy k) = k := by
  induction k with
  | zero => simp [runEvents, nextDurations]
  | succ k ih =>
    simp [runEvents, attemptEvents, nextDurations_append, nextDurations_rewindEvents,
      nextDurations, ih]

end Lemmas

/-! ## Lemmas on the loop -/

section Loop

variable {ρ ε : Type}

theorem bodySent_succ (request : OCIRetryableRequest) (operation : OCIOperation ρ ε)
    (policy : RetryPolicy ρ ε) (j : Nat) :
    bodySent request operation policy (j + 1) =
      rewind (isSeekable request policy) (curPos request policy)
        (bodyAfter request operation policy j) := rfl

/-- An attempt that hands over: one turn of the loop. -/
theorem retryLoop_proceeds (now : Nat → Int) (ctx : Context) (request : OCIRetryableRequest)
    (operation : OCIOperation ρ ε) (policy : RetryPolicy ρ ε) (fuel j : Nat)
    (hcont : shouldContinueIssuingRequests (j + 1) policy.MaximumNumberAttempts = true)
    (h : proceeds now ctx request operation policy (j + 1) = true)
    (response : Option ρ) (err : Option ε) :
    retryLoop now ctx operation policy request.BinaryRequestBody.2 (isSeekable request policy)
        (curPos request policy) (fuel + 1) (j + 1) (bodyAfter request operation policy j)
        response err =
      (retryLoop now ctx operation policy request.BinaryRequestBody.2
          (isSeekable request policy) (curPos request policy) fuel (j + 2)
          (bodyAfter request operation policy (j + 1))
          (outcome request operation policy (j + 1)).1
          (outcome request operation policy (j + 1)).2).map
        (fun out => (out.1, attemptEvents request operation policy (j + 1) ++ out.2)) := by
  rw [retryLoop, if_pos hcont]
  simp only [proceeds, attempt, bodySent_succ] at h
  simp only [attemptEvents, operationResponse, outcome, backoff, attempt, bodySent_succ, bodyAfter]
  cases hres : (operation (j + 1) (rewind (isSeekable request policy) (curPos request policy)
      (bodyAfter request operation policy j))).result with
  | error p => simp [hres] at h
  | ok out =>
    obtain ⟨response1, err1⟩ := out
    simp only [hres] at h ⊢
    cases hs : policy.ShouldRetryOperation (NewOCIOperationResponse response1 err1 (j + 1)) with
    | error p => simp [hs] at h
    | ok b =>
      cases hd : policy.NextDuration (NewOCIOperationResponse response1 err1 (j + 1)) with
      | error p => cases b <;> simp [hs, hd] at h
      | ok duration =>
        cases b with
        | false => simp [hs, hd] at h
        | true =>
          simp only [hs, hd, Bool.and_eq_true, Bool.not_eq_true_eq_eq_false] at h
          simp [h.1, h.2]

/-- When the attempts `1 .. j` each hand over to the next, the loop reaches attempt `j + 1`. -/
theorem retryLoop_run (now : Nat → Int) (ctx : Context) (request : OCIRetryableRequest)
    (operation : OCIOperation ρ ε) (policy : RetryPolicy ρ ε) (j : Nat)
    (hcont : j = 0 ∨ shouldContinueIssuingRequests j policy.MaximumNumberAttempts = true)
    (h : ∀ k < j + 1, 1 ≤ k → proceeds now ctx request operation policy k = true) (fuel : Nat) :
    Retry (fuel + j) now ctx request operation policy =
      (retryLoop now ctx operation policy request.BinaryRequestBody.2
          (isSeekable request policy) (curPos request policy) fuel (j + 1)
          (bodyAfter request operation policy j)
          (outcome request operation policy j).1
          (outcome request operation policy j).2).map
        (fun out => (out.1, runEvents request operation policy j ++ out.2)) := by
  induction j generalizing fuel with
  | zero => simp [Retry, runEvents, bodyAfter, outcome]
  | succ j ih =>
    have hj : shouldContinueIssuingRequests (j + 1) policy.MaximumNumberAttempts = true := by
      rcases hcont with h0 | h1
      · omega
      · exact h1
    have hprev : j = 0 ∨ shouldContinueIssuingRequests j policy.MaximumNumberAttempts = true :=
      Or.inr (shouldContinueIssuingRequests_mono (Nat.le_succ j) hj)
    have hrun := ih hprev (fun k hk h1 => h k (by omega) h1) (fuel + 1)
    have hstep := retryLoop_proceeds now ctx request operation policy fuel j hj
      (h (j + 1) (by omega) (by omega)) (outcome request operation policy j).1
      (outcome request operation policy j).2
    rw [show fuel + (j + 1) = fuel + 1 + j by omega, hrun, hstep, Option.map_map]
    congr 1
    funext out
    simp [runEvents, List.append_assoc]

theorem retryLoop_stop (now : Nat → Int) (ctx : Context) (operation : OCIOperation ρ ε)
    (policy : RetryPolicy ρ ε) (isBinaryRequest seekable : Bool) (pos : Int) (fuel k : Nat)
    (rsc : Option OCIReadSeekCloser) (response : Option ρ) (err : Option ε)
    (h : shouldContinueIssuingRequests k policy.MaximumNumberAttempts = false) :
    retryLoop now ctx operation policy isBinaryRequest seekable pos fuel k rsc response err =
      some ({ response := response, err := err.map .operation }, []) := by
  cases fuel <;> simp [retryLoop, h]

theorem shouldContinueIssuingRequests_one (maximum : Nat) :
    shouldContinueIssuingRequests 1 maximum = true := by
  simp only [shouldContinueIssuingRequests, UnlimitedNumAttemptsValue, Bool.or_eq_true,
    beq_iff_eq, decide_eq_true_eq]
  omega

/-- The loop sends a `NonSeekableRequestRetryFailure` only from the stop for a binary body
that it holds to be not seekable. -/
theorem retryLoop_nonSeekable (now : Nat → Int) (ctx : Context) (operation : OCIOperation ρ ε)
    (policy : RetryPolicy ρ ε) (isBinaryRequest seekable : Bool) (pos : Int) (fuel k : Nat)
    (rsc : Option OCIReadSeekCloser) (response : Option ρ) (err : Option ε)
    (out : retrierResult ρ ε × List (Event ρ ε)) (wrapped : Option ε)
    (hout : retryLoop now ctx operation policy isBinaryRequest seekable pos fuel k rsc
      response err = some out)
    (herr : out.1.err = some (.NonSeekableRequestRetryFailure wrapped)) :
    isBinaryRequest = true ∧ seekable = false := by
  induction fuel generalizing k rsc response err out with
  | zero =>
    rw [retryLoop] at hout
    split at hout
    · cases hout
    · obtain rfl := Option.some.inj hout
      simp [Option.map_eq_some'] at herr
  | succ fuel ih =>
    rw [retryLoop] at hout
    split at hout
    · simp only [] at hout
      split at hout
      · obtain rfl := Option.some.inj hout; simp at herr
      · split at hout
        · obtain rfl := Option.some.inj hout; simp at herr
        · obtain rfl := Option.some.inj hout
          simp [Option.map_eq_some'] at herr
        · split at hout
          · rename_i hstop
            simpa using hstop
          · split at hout
            · obtain rfl := Option.some.inj hout; simp at herr
            · split at hout
              · obtain rfl := Option.some.inj hout; simp at herr
              · simp only [Option.map_eq_some'] at hout
                obtain ⟨out1, hout1, rfl⟩ := hout
                exact ih _ _ _ _ _ hout1 herr
    · obtain rfl := Option.some.inj hout
      simp [Option.map_eq_some'] at herr

/-- The loop sends `DeadlineExceededByBackoff` only when the context has a deadline. -/
theorem retryLoop_deadlineExceeded (now : Nat → Int) (ctx : Context)
    (operation : OCIOperation ρ ε) (policy : RetryPolicy ρ ε) (isBinaryRequest seekable : Bool)
    (pos : Int) (fuel k : Nat) (rsc : Option OCIReadSeekCloser) (response : Option ρ)
    (err : Option ε) (out : retrierResult ρ ε × List (Event ρ ε))
    (hout : retryLoop now ctx operation policy isBinaryRequest seekable pos fuel k rsc
      response err = some out)
    (herr : out.1.err = some .DeadlineExceededByBackoff) :
    ctx.Deadline ≠ none := by
  induction fuel generalizing k rsc response err out with
  | zero =>
    rw [retryLoop] at hout
    split at hout
    · cases hout
    · obtain rfl := Option.some.inj hout
      simp [Option.map_eq_some'] at herr
  | succ fuel ih =>
    rw [retryLoop] at hout
    split at hout
    · simp only [] at hout
      split at hout
      · obtain rfl := Option.some.inj hout; simp at herr
      · split at hout
        · obtain rfl := Option.some.inj hout; simp at herr
        · obtain rfl := Option.some.inj hout
          simp [Option.map_eq_some'] at herr
        · split at hout
          · obtain rfl := Option.some.inj hout; simp at herr
          · split at hout
            · obtain rfl := Option.some.inj hout; simp at herr
            · split at hout
              · rename_i hdl
                intro hnone
                simp [deadlineExceeded, hnone] at hdl
              · simp only [Option.map_eq_some'] at hout
                obtain ⟨out1, hout1, rfl⟩ := hout
                exact ih _ _ _ _ _ hout1 herr
    · obtain rfl := Option.some.inj hout
      simp [Option.map_eq_some'] at herr

/-- When attempts `1 .. j` each hand over and attempt `j + 1` returns a pair on which
`ShouldRetryOperation` answers false, the run ends there with that pair; its steps are those
of the `j` attempts, the invocation of attempt `j + 1` and the question to the policy. -/
theorem Retry_of_stop (now : Nat → Int) (ctx : Context)
    (request : OCIRetryableRequest) (operation : OCIOperation ρ ε) (policy : RetryPolicy ρ ε)
    (fuel j : Nat)
    (hbudget : shouldContinueIssuingRequests (j + 1) policy.MaximumNumberAttempts = true)
    (hretry : ∀ k < j + 1, 1 ≤ k → proceeds now ctx request operation policy k = true)
    (response : Option ρ) (err : Option ε)
    (hop : (attempt request operation policy (j + 1)).result = .ok (response, err))
    (hstop : policy.ShouldRetryOperation (NewOCIOperationResponse response err (j + 1)) =
      .ok false) :
    Retry (fuel + 1 + j) now ctx request operation policy =
      some ({ response := response, err := err.map .operation },
        runEvents request operation policy j ++
          (rewindEvents (isSeekable request policy) (curPos request policy) ++
            [.operation (j + 1) (bodySent request operation policy (j + 1)),
              .shouldRetryOperation (NewOCIOperationResponse response err (j + 1))])) := by
  have hprev : j = 0 ∨ shouldContinueIssuingRequests j policy.MaximumNumberAttempts = true :=
    Or.inr (shouldContinueIssuingRequests_mono (Nat.le_succ j) hbudget)
  rw [retryLoop_run now ctx request operation policy j hprev hretry (fuel + 1), retryLoop,
    if_pos hbudget]
  simp only [attempt, bodySent_succ] at hop
  simp only [hop, hstop, Option.map_some', bodySent_succ]
  simp

/-- When attempts `1 .. m` each hand over and `m` is the attempt budget, the run ends after
attempt `m` with the variables `response, err` as attempt `m` left them. -/
theorem Retry_of_exhausted (now : Nat → Int) (ctx : Context)
    (request : OCIRetryableRequest) (operation : OCIOperation ρ ε) (policy : RetryPolicy ρ ε)
    (fuel m : Nat) (hm : 1 ≤ m) (hmax : policy.MaximumNumberAttempts = m)
    (hretry : ∀ k < m + 1, 1 ≤ k → proceeds now ctx request operation policy k = true) :
    Retry (fuel + m) now ctx request operation policy =
      some ({ response := (outcome request operation policy m).1,
              err := (outcome request operation policy m).2.map .operation },
        runEvents request operation policy m) := by
  have hin : shouldContinueIssuingRequests m policy.MaximumNumberAttempts = true := by
    simp [shouldContinueIssuingRequests, hmax]
  have hstop : shouldContinueIssuingRequests (m + 1) policy.MaximumNumberAttempts = false := by
    simp only [shouldContinueIssuingRequests, UnlimitedNumAttemptsValue, hmax,
      Bool.or_eq_false_iff, beq_eq_false_iff_ne, decide_eq_false_iff_not]
    omega
  rw [retryLoop_run now ctx request operation policy m (Or.inr hin) hretry fuel,
    retryLoop_stop _ _ _ _ _ _ _ _ _ _ _ _ hstop]
  simp

/-- An attempt hands over as soon as the operation returns, `ShouldRetryOperation` answers
true, `NextDuration` returns, the request has no binary body and the context no deadline. -/
theorem proceeds_of_retry (now : Nat → Int) (ctx : Context) (request : OCIRetryableRequest)
    (operation : OCIOperation ρ ε) (policy : RetryPolicy ρ ε) (k : Nat)
    (hbody : request.BinaryRequestBody.2 = false) (hdeadline : ctx.Deadline = none)
    (response : Option ρ) (err : Option ε) (duration : Duration)
    (hop : (attempt request operation policy k).result = .ok (response, err))
    (hretry : policy.ShouldRetryOperation (NewOCIOperationResponse response err k) = .ok true)
    (hnext : policy.NextDuration (NewOCIOperationResponse response err k) = .ok duration) :
    proceeds now ctx request operation policy k = true := by
  simp [proceeds, hop, hretry, hnext, hbody, deadlineExceeded, hdeadline]

/-- A run that takes no turn of the loop has no steps. -/
theorem retryLoop_steps_of_stop (now : Nat → Int) (ctx : Context) (operation : OCIOperation ρ ε)
    (policy : RetryPolicy ρ ε) (isBinaryRequest seekable : Bool) (pos : Int) (fuel k : Nat)
    (rsc : Option OCIReadSeekCloser) (response : Option ρ) (err : Option ε)
    (out : retrierResult ρ ε × List (Event ρ ε))
    (hout : retryLoop now ctx operation policy isBinaryRequest seekable pos fuel k rsc
      response err = some out)
    (h : fuel = 0 ∨ shouldContinueIssuingRequests k policy.MaximumNumberAttempts = false) :
    out.2 = [] := by
  by_cases hc : shouldContinueIssuingRequests k policy.MaximumNumberAttempts = true
  · rcases h with rfl | h
    · rw [retryLoop, if_pos hc] at hout
      cases hout
    · rw [h] at hc
      cases hc
  · rw [retryLoop_stop _ _ _ _ _ _ _ _ _ _ _ _ (by simpa using hc)] at hout
    obtain rfl := Option.some.inj hout
    rfl

/-- The shape of a run that takes a turn of the loop: the rewinding, the invocation, and then
either nothing more (the operation faulted), or the question to the policy and the end of the
run, or the question, the backoff, the suspension and the run from the next attempt on. -/
theorem retryLoop_steps_of_turn (now : Nat → Int) (ctx : Context) (operation : OCIOperation ρ ε)
    (policy : RetryPolicy ρ ε) (isBinaryRequest seekable : Bool) (pos : Int) (fuel k : Nat)
    (rsc : Option OCIReadSeekCloser) (response : Option ρ) (err : Option ε)
    (out : retrierResult ρ ε × List (Event ρ ε))
    (hout : retryLoop now ctx operation policy isBinaryRequest seekable pos (fuel + 1) k rsc
      response err = some out)
    (hc : shouldContinueIssuingRequests k policy.MaximumNumberAttempts = true) :
    ∃ tail, out.2 = rewindEvents seekable pos ++
        (.operation k (rewind seekable pos rsc) :: tail) ∧
      (tail = [] ∨
        ∃ response1 err1,
          (operation k (rewind seekable pos rsc)).result = .ok (response1, err1) ∧
          (tail = [.shouldRetryOperation (NewOCIOperationResponse response1 err1 k)] ∨
            tail = [.shouldRetryOperation (NewOCIOperationResponse response1 err1 k),
              .nextDuration (NewOCIOperationResponse response1 err1 k)] ∨
            ∃ duration rest,
              policy.NextDuration (NewOCIOperationResponse response1 err1 k) = .ok duration ∧
              tail = .shouldRetryOperation (NewOCIOperationResponse response1 err1 k) ::
                .nextDuration (NewOCIOperationResponse response1 err1 k) ::
                .after duration :: rest.2 ∧
              retryLoop now ctx operation policy isBinaryRequest seekable pos fuel (k + 1)
                ((rewind seekable pos rsc).map (fun body =>
                  { body with currentOffset :=
                      (operation k (rewind seekable pos rsc)).offset }))
                response1 err1 = some rest)) := by
  rw [retryLoop, if_pos hc] at hout
  simp only [] at hout
  cases hres : (operation k (rewind seekable pos rsc)).result with
  | error p =>
    simp only [hres] at hout
    obtain rfl := Option.some.inj hout
    exact ⟨[], by simp, Or.inl rfl⟩
  | ok pair =>
    obtain ⟨response1, err1⟩ := pair
    simp only [hres] at hout
    cases hs : policy.ShouldRetryOperation (NewOCIOperationResponse response1 err1 k) with
    | error p =>
      simp only [hs] at hout
      obtain rfl := Option.some.inj hout
      exact ⟨_, by simp, Or.inr ⟨response1, err1, rfl, Or.inl rfl⟩⟩
    | ok b =>
      cases b with
      | false =>
        simp only [hs] at hout
        obtain rfl := Option.some.inj hout
        exact ⟨_, by simp, Or.inr ⟨response1, err1, rfl, Or.inl rfl⟩⟩
      | true =>
        simp only [hs] at hout
        split at hout
        · obtain rfl := Option.some.inj hout
          exact ⟨_, by simp, Or.inr ⟨response1, err1, rfl, Or.inl rfl⟩⟩
        · cases hd : policy.NextDuration (NewOCIOperationResponse response1 err1 k) with
          | error p =>
            simp only [hd] at hout
            obtain rfl := Option.some.inj hout
            exact ⟨_, by simp, Or.inr ⟨response1, err1, rfl, Or.inr (Or.inl rfl)⟩⟩
          | ok duration =>
            simp only [hd] at hout
            split at hout
            · obtain rfl := Option.some.inj hout
              exact ⟨_, by simp, Or.inr ⟨response1, err1, rfl, Or.inr (Or.inl rfl)⟩⟩
            · simp only [Option.map_eq_some'] at hout
              obtain ⟨rest, hrest, rfl⟩ := hout
              exact ⟨_, by simp, Or.inr ⟨response1, err1, rfl,
                Or.inr (Or.inr ⟨duration, rest, hd, rfl, hrest⟩)⟩⟩

theorem operationCalls_turn (seekable : Bool) (pos : Int) (k : Nat)
    (body : Option OCIReadSeekCloser) (tail : List (Event ρ ε)) :
    operationCalls (rewindEvents seekable pos ++ (.operation k body :: tail)) =
      (k, body) :: operationCalls tail := by
  cases seekable <;> simp [operationCalls, rewindEvents]

theorem shouldRetryArguments_turn (seekable : Bool) (pos : Int) (k : Nat)
    (body : Option OCIReadSeekCloser) (tail : List (Event ρ ε)) :
    shouldRetryArguments (rewindEvents seekable pos ++ (.operation k body :: tail)) =
      shouldRetryArguments tail := by
  cases seekable <;> simp [shouldRetryArguments, rewindEvents]

theorem nextDurationArguments_turn (seekable : Bool) (pos : Int) (k : Nat)
    (body : Option OCIReadSeekCloser) (tail : List (Event ρ ε)) :
    nextDurationArguments (rewindEvents seekable pos ++ (.operation k body :: tail)) =
      nextDurationArguments tail := by
  cases seekable <;> simp [nextDurationArguments, rewindEvents]

/-- In a run of the loop from attempt `k` on, the context numbered `i` (from 0) that is handed
to `ShouldRetryOperation`, or to `NextDuration`, has the attempt number `k + i` and carries what
the invocation numbered `i`, made by attempt `k + i`, returned. -/
theorem retryLoop_arguments (now : Nat → Int) (ctx : Context) (operation : OCIOperation ρ ε)
    (policy : RetryPolicy ρ ε) (isBinaryRequest seekable : Bool) (pos : Int) (fuel k : Nat)
    (rsc : Option OCIReadSeekCloser) (response : Option ρ) (err : Option ε)
    (out : retrierResult ρ ε × List (Event ρ ε))
    (hout : retryLoop now ctx operation policy isBinaryRequest seekable pos fuel k rsc
      response err = some out)
    (i : Nat) (r : OCIOperationResponse ρ ε)
    (hr : (shouldRetryArguments out.2)[i]? = some r ∨
      (nextDurationArguments out.2)[i]? = some r) :
    r.AttemptNumber = k + i ∧
      ∃ body, (operationCalls out.2)[i]? = some (k + i, body) ∧
        (operation (k + i) body).result = .ok (r.Response, r.Error) := by
  induction fuel generalizing k rsc response err out i with
  | zero =>
    rw [retryLoop_steps_of_stop _ _ _ _ _ _ _ _ _ _ _ _ out hout (Or.inl rfl)] at hr
    simp [shouldRetryArguments, nextDurationArguments] at hr
  | succ fuel ih =>
    by_cases hc : shouldContinueIssuingRequests k policy.MaximumNumberAttempts = true
    · obtain ⟨tail, hsteps, hshape⟩ :=
        retryLoop_steps_of_turn _ _ _ _ _ _ _ _ _ _ _ _ out hout hc
      rw [hsteps, shouldRetryArguments_turn, nextDurationArguments_turn] at hr
      rw [hsteps, operationCalls_turn]
      rcases hshape with rfl | ⟨response1, err1, hres, rfl | rfl | ⟨duration, rest, -, rfl, hrest⟩⟩
      · simp [shouldRetryArguments, nextDurationArguments] at hr
      · cases i with
        | zero =>
          simp [shouldRetryArguments, nextDurationArguments] at hr
          subst hr
          exact ⟨rfl, rewind seekable pos rsc, by simp, hres⟩
        | succ i => simp [shouldRetryArguments, nextDurationArguments] at hr
      · cases i with
        | zero =>
          simp [shouldRetryArguments, nextDurationArguments] at hr
          subst hr
          exact ⟨rfl, rewind seekable pos rsc, by simp, hres⟩
        | succ i => simp [shouldRetryArguments, nextDurationArguments] at hr
      · cases i with
        | zero =>
          simp [shouldRetryArguments, nextDurationArguments] at hr
          subst hr
          exact ⟨rfl, rewind seekable pos rsc, by simp, hres⟩
        | succ i =>
          have hr1 : (shouldRetryArguments rest.2)[i]? = some r ∨
              (nextDurationArguments rest.2)[i]? = some r := by
            simpa [shouldRetryArguments, nextDurationArguments] using hr
          obtain ⟨hnum, body, hcall, hbody⟩ := ih _ _ _ _ _ hrest i hr1
          have harith : k + (i + 1) = k + 1 + i := by omega
          refine ⟨by omega, body, ?_, by rw [harith]; exact hbody⟩
          rw [harith]
          simpa [operationCalls] using hcall
    · rw [retryLoop_steps_of_stop _ _ _ _ _ _ _ _ _ _ _ _ out hout
        (Or.inr (by simpa using hc))] at hr
      simp [shouldRetryArguments, nextDurationArguments] at hr

/-- In a run of the loop from attempt `k` on, the invocation numbered `i` (from 0) is made by
attempt `k + i`. -/
theorem retryLoop_operationCalls (now : Nat → Int) (ctx : Context)
    (operation : OCIOperation ρ ε) (policy : RetryPolicy ρ ε) (isBinaryRequest seekable : Bool)
    (pos : Int) (fuel k : Nat) (rsc : Option OCIReadSeekCloser) (response : Option ρ)
    (err : Option ε) (out : retrierResult ρ ε × List (Event ρ ε))
    (hout : retryLoop now ctx operation policy isBinaryRequest seekable pos fuel k rsc
      response err = some out)
    (i a : Nat) (body : Option OCIReadSeekCloser)
    (hcall : (operationCalls out.2)[i]? = some (a, body)) : a = k + i := by
  induction fuel generalizing k rsc response err out i with
  | zero =>
    rw [retryLoop_steps_of_stop _ _ _ _ _ _ _ _ _ _ _ _ out hout (Or.inl rfl)] at hcall
    simp [operationCalls] at hcall
  | succ fuel ih =>
    by_cases hc : shouldContinueIssuingRequests k policy.MaximumNumberAttempts = true
    · obtain ⟨tail, hsteps, hshape⟩ :=
        retryLoop_steps_of_turn _ _ _ _ _ _ _ _ _ _ _ _ out hout hc
      rw [hsteps, operationCalls_turn] at hcall
      cases i with
      | zero =>
        simp at hcall
        omega
      | succ i =>
        rcases hshape with rfl | ⟨response1, err1, -, rfl | rfl | ⟨duration, rest, -, rfl, hrest⟩⟩
        · simp [operationCalls] at hcall
        · simp [operationCalls] at hcall
        · simp [operationCalls] at hcall
        · have hcall1 : (operationCalls rest.2)[i]? = some (a, body) := by
            simpa [operationCalls] using hcall
          have := ih _ _ _ _ _ hrest i hcall1
          omega
    · rw [retryLoop_steps_of_stop _ _ _ _ _ _ _ _ _ _ _ _ out hout
        (Or.inr (by simpa using hc))] at hcall
      simp [operationCalls] at hcall

theorem rewind_seekable (stream : List Nat) (offset pos : Int) (hpos : 0 ≤ pos) :
    rewind true pos (some { stream := stream, isSeekable := true, currentOffset := offset }) =
      some { stream := stream, isSeekable := true, currentOffset := pos } := by
  simp [rewind, OCIReadSeekCloser.Seek, hpos]

/-- When the loop rewinds a seekable body to `pos`, every invocation of the run is handed the
body at read offset `pos`. -/
theorem retryLoop_bodies (now : Nat → Int) (ctx : Context) (operation : OCIOperation ρ ε)
    (policy : RetryPolicy ρ ε) (isBinaryRequest : Bool) (pos : Int) (hpos : 0 ≤ pos)
    (stream : List Nat) (fuel k : Nat) (offset : Int) (response : Option ρ) (err : Option ε)
    (out : retrierResult ρ ε × List (Event ρ ε))
    (hout : retryLoop now ctx operation policy isBinaryRequest true pos fuel k
      (some { stream := stream, isSeekable := true, currentOffset := offset })
      response err = some out) :
    ∀ call ∈ operationCalls out.2,
      call.2 = some { stream := stream, isSeekable := true, currentOffset := pos } := by
  induction fuel generalizing k offset response err out with
  | zero =>
    rw [retryLoop_steps_of_stop _ _ _ _ _ _ _ _ _ _ _ _ out hout (Or.inl rfl)]
    simp [operationCalls]
  | succ fuel ih =>
    by_cases hc : shouldContinueIssuingRequests k policy.MaximumNumberAttempts = true
    · obtain ⟨tail, hsteps, hshape⟩ :=
        retryLoop_steps_of_turn _ _ _ _ _ _ _ _ _ _ _ _ out hout hc
      rw [hsteps, operationCalls_turn, rewind_seekable stream offset pos hpos]
      intro call hcall
      rcases List.mem_cons.mp hcall with rfl | hcall
      · rfl
      · rcases hshape with rfl | ⟨response1, err1, -, rfl | rfl | ⟨duration, rest, -, rfl, hrest⟩⟩
        · simp [operationCalls] at hcall
        · simp [operationCalls] at hcall
        · simp [operationCalls] at hcall
        · rw [rewind_seekable stream offset pos hpos] at hrest
          have hcall1 : call ∈ operationCalls rest.2 := by
            simpa [operationCalls] using hcall
          exact ih _ _ _ _ _ hrest call hcall1
    · rw [retryLoop_steps_of_stop _ _ _ _ _ _ _ _ _ _ _ _ out hout
        (Or.inr (by simpa using hc))]
      simp [operationCalls]

/-- A seekable body stays the same stream, and seekable, through the attempts. -/
theorem bodyAfter_seekable (request : OCIRetryableRequest) (operation : OCIOperation ρ ε)
    (policy : RetryPolicy ρ ε) (body : OCIReadSeekCloser)
    (hbody : request.BinaryRequestBody.1 = some body) (hseekable : body.isSeekable = true)
    (hseek : isSeekable request policy = true) (hpos : 0 ≤ curPos request policy) (j : Nat) :
    ∃ offset, bodyAfter request operation policy j =
      some { stream := body.stream, isSeekable := true, currentOffset := offset } := by
  induction j with
  | zero =>
    refine ⟨body.currentOffset, ?_⟩
    rw [bodyAfter, hbody, ← hseekable]
  | succ j ih =>
    obtain ⟨offset, hj⟩ := ih
    rw [bodyAfter, hj, hseek, rewind_seekable _ _ _ hpos]
    exact ⟨_, rfl⟩

/-- The local `isSeekable` and `curPos` for a seekable body at a read offset `k ≥ 0` under a
policy with `MaximumNumberAttempts ≠ 1`. -/
theorem isSeekable_curPos_of_seekable (request : OCIRetryableRequest) (policy : RetryPolicy ρ ε)
    (body : OCIReadSeekCloser) (hbody : request.BinaryRequestBody.1 = some body)
    (hseekable : body.isSeekable = true) (hoffset : 0 ≤ body.currentOffset)
    (hmax : policy.MaximumNumberAttempts ≠ 1) :
    isSeekable request policy = true ∧ curPos request policy = body.currentOffset := by
  have hseek : isSeekable request policy = true := by
    simp [isSeekable, hbody, Seekable, hseekable, hmax]
  exact ⟨hseek, by simp [curPos, hseek, hbody, OCIReadSeekCloser.Seek, hseekable, hoffset]⟩

/-- The body handed over by every attempt is the seekable body as it was on entry. -/
theorem bodySent_seekable (request : OCIRetryableRequest) (operation : OCIOperation ρ ε)
    (policy : RetryPolicy ρ ε) (body : OCIReadSeekCloser)
    (hbody : request.BinaryRequestBody.1 = some body) (hseekable : body.isSeekable = true)
    (hoffset : 0 ≤ body.currentOffset) (hmax : policy.MaximumNumberAttempts ≠ 1) (N : Nat) :
    bodySent request operation policy N = some body := by
  obtain ⟨hseek, hcur⟩ :=
    isSeekable_curPos_of_seekable request policy body hbody hseekable hoffset hmax
  have heta : some (OCIReadSeekCloser.mk body.stream true body.currentOffset) = some body := by
    rw [← hseekable]
  obtain ⟨offset, hafter⟩ := bodyAfter_seekable request operation policy body hbody hseekable
    hseek (by rw [hcur]; exact hoffset) (N - 1)
  rw [bodySent, hafter, hseek, hcur, rewind_seekable _ _ _ hoffset, heta]

theorem operationCalls_append (a b : List (Event ρ ε)) :
    operationCalls (a ++ b) = operationCalls a ++ operationCalls b := by
  simp [operationCalls]

theorem operationCalls_attemptEvents (request : OCIRetryableRequest)
    (operation : OCIOperation ρ ε) (policy : RetryPolicy ρ ε) (k : Nat) :
    operationCalls (attemptEvents request operation policy k) =
      [(k, bodySent request operation policy k)] := by
  rw [attemptEvents, operationCalls_turn]
  simp [operationCalls]

/-- The invocations of the first `j` attempts, when each of them hands over to the next. -/
theorem operationCalls_runEvents (request : OCIRetryableRequest) (operation : OCIOperation ρ ε)
    (policy : RetryPolicy ρ ε) (j : Nat) :
    operationCalls (runEvents request operation policy j) =
      (List.range j).map (fun i => (i + 1, bodySent request operation policy (i + 1))) := by
  induction j with
  | zero => simp [runEvents, operationCalls]
  | succ j ih =>
    rw [runEvents, operationCalls_append, ih, operationCalls_attemptEvents, List.range_succ,
      List.map_append]
    rfl

/-- The steps of a delivered run are the steps of its turns. -/
theorem retryLoopSteps_of_retryLoop (now : Nat → Int) (ctx : Context)
    (operation : OCIOperation ρ ε) (policy : RetryPolicy ρ ε) (isBinaryRequest seekable : Bool)
    (pos : Int) (fuel k : Nat) (rsc : Option OCIReadSeekCloser) (response : Option ρ)
    (err : Option ε) (out : retrierResult ρ ε × List (Event ρ ε))
    (hout : retryLoop now ctx operation policy isBinaryRequest seekable pos fuel k rsc
      response err = some out) :
    out.2 = retryLoopSteps now ctx operation policy isBinaryRequest seekable pos fuel k rsc := by
  induction fuel generalizing k rsc response err out with
  | zero =>
    rw [retryLoop_steps_of_stop _ _ _ _ _ _ _ _ _ _ _ _ out hout (Or.inl rfl), retryLoopSteps]
  | succ fuel ih =>
    by_cases hc : shouldContinueIssuingRequests k policy.MaximumNumberAttempts = true
    · rw [retryLoop, if_pos hc] at hout
      rw [retryLoopSteps, if_pos hc]
      simp only [] at hout ⊢
      cases hres : (operation k (rewind seekable pos rsc)).result with
      | error p =>
        simp only [hres] at hout ⊢
        obtain rfl := Option.some.inj hout
        rfl
      | ok pair =>
        obtain ⟨response1, err1⟩ := pair
        simp only [hres] at hout ⊢
        cases hs : policy.ShouldRetryOperation (NewOCIOperationResponse response1 err1 k) with
        | error p =>
          simp only [hs] at hout ⊢
          obtain rfl := Option.some.inj hout
          rfl
        | ok b =>
          cases b with
          | false =>
            simp only [hs] at hout ⊢
            obtain rfl := Option.some.inj hout
            rfl
          | true =>
            simp only [hs] at hout ⊢
            by_cases hflag : (isBinaryRequest && !seekable) = true
            · rw [if_pos hflag] at hout ⊢
              obtain rfl := Option.some.inj hout
              rfl
            · rw [if_neg hflag] at hout ⊢
              cases hd : policy.NextDuration (NewOCIOperationResponse response1 err1 k) with
              | error p =>
                simp only [hd] at hout ⊢
                obtain rfl := Option.some.inj hout
                rfl
              | ok duration =>
                simp only [hd] at hout ⊢
                by_cases hdl : deadlineExceeded ctx (now k) duration = true
                · rw [if_pos hdl] at hout ⊢
                  obtain rfl := Option.some.inj hout
                  rfl
                · rw [if_neg hdl] at hout ⊢
                  simp only [Option.map_eq_some'] at hout
                  obtain ⟨rest, hrest, rfl⟩ := hout
                  rw [← ih _ _ _ _ _ hrest]
    · rw [retryLoop_steps_of_stop _ _ _ _ _ _ _ _ _ _ _ _ out hout
        (Or.inr (by simpa using hc)), retryLoopSteps, if_neg hc]

/-- The steps of a delivered run of `Retry` are the steps of its turns. -/
theorem RetrySteps_of_Retry (now : Nat → Int) (ctx : Context) (request : OCIRetryableRequest)
    (operation : OCIOperation ρ ε) (policy : RetryPolicy ρ ε) (fuel : Nat)
    (out : retrierResult ρ ε × List (Event ρ ε))
    (hout : Retry fuel now ctx request operation policy = some out) :
    out.2 = RetrySteps fuel now ctx request operation policy :=
  retryLoopSteps_of_retryLoop _ _ _ _ _ _ _ _ _ _ _ _ out hout

/-- The steps of the first `fuel` turns open the steps of the first `fuel + more` turns. -/
theorem retryLoopSteps_prefix (now : Nat → Int) (ctx : Context) (operation : OCIOperation ρ ε)
    (policy : RetryPolicy ρ ε) (isBinaryRequest seekable : Bool) (pos : Int) (more fuel k : Nat)
    (rsc : Option OCIReadSeekCloser) :
    retryLoopSteps now ctx operation policy isBinaryRequest seekable pos fuel k rsc <+:
      retryLoopSteps now ctx operation policy isBinaryRequest seekable pos (fuel + more) k
        rsc := by
  induction fuel generalizing k rsc with
  | zero =>
    rw [retryLoopSteps]
    exact List.nil_prefix
  | succ fuel ih =>
    rw [show fuel + 1 + more = fuel + more + 1 by omega, retryLoopSteps, retryLoopSteps]
    by_cases hc : shouldContinueIssuingRequests k policy.MaximumNumberAttempts = true
    · rw [if_pos hc, if_pos hc]
      simp only []
      cases hres : (operation k (rewind seekable pos rsc)).result with
      | error p => exact List.prefix_refl _
      | ok pair =>
        obtain ⟨response1, err1⟩ := pair
        simp only []
        cases hs : policy.ShouldRetryOperation (NewOCIOperationResponse response1 err1 k) with
        | error p => exact List.prefix_refl _
        | ok b =>
          cases b with
          | false => exact List.prefix_refl _
          | true =>
            simp only []
            by_cases hflag : (isBinaryRequest && !seekable) = true
            · rw [if_pos hflag, if_pos hflag]
            · rw [if_neg hflag, if_neg hflag]
              cases hd : policy.NextDuration (NewOCIOperationResponse response1 err1 k) with
              | error p => exact List.prefix_refl _
              | ok duration =>
                simp only []
                by_cases hdl : deadlineExceeded ctx (now k) duration = true
                · rw [if_pos hdl, if_pos hdl]
                · rw [if_neg hdl, if_neg hdl]
                  exact (List.prefix_append_right_inj _).mpr (ih _ _)
    · rw [if_neg hc, if_neg hc]

/-- The steps of the first `fuel` turns open the steps of every run of `Retry` that delivers
after at least as many turns. -/
theorem RetrySteps_prefix_of_Retry (now : Nat → Int) (ctx : Context)
    (request : OCIRetryableRequest) (operation : OCIOperation ρ ε) (policy : RetryPolicy ρ ε)
    (fuel more : Nat) (out : retrierResult ρ ε × List (Event ρ ε))
    (hout : Retry (fuel + more) now ctx request operation policy = some out) :
    RetrySteps fuel now ctx request operation policy <+: out.2 := by
  rw [RetrySteps_of_Retry now ctx request operation policy (fuel + more) out hout]
  exact retryLoopSteps_prefix _ _ _ _ _ _ _ _ _ _ _

/-- A turn of the loop starts with the rewinding and the invocation of the operation; the
invocations that follow in the first `fuel + 1` turns are those of the next `fuel` turns, when
there are any. -/
theorem retryLoopSteps_turn (now : Nat → Int) (ctx : Context) (operation : OCIOperation ρ ε)
    (policy : RetryPolicy ρ ε) (isBinaryRequest seekable : Bool) (pos : Int) (fuel k : Nat)
    (rsc : Option OCIReadSeekCloser)
    (hc : shouldContinueIssuingRequests k policy.MaximumNumberAttempts = true) :
    ∃ tail, retryLoopSteps now ctx operation policy isBinaryRequest seekable pos (fuel + 1) k
          rsc =
        rewindEvents seekable pos ++ (.operation k (rewind seekable pos rsc) :: tail) ∧
      (operationCalls tail = [] ∨
        operationCalls tail =
          operationCalls (retryLoopSteps now ctx operation policy isBinaryRequest seekable pos
            fuel (k + 1)
            ((rewind seekable pos rsc).map (fun body =>
              { body with currentOffset :=
                  (operation k (rewind seekable pos rsc)).offset })))) := by
  rw [retryLoopSteps, if_pos hc]
  simp only []
  cases hres : (operation k (rewind seekable pos rsc)).result with
  | error p => exact ⟨[], by simp, Or.inl rfl⟩
  | ok pair =>
    obtain ⟨response1, err1⟩ := pair
    simp only []
    cases hs : policy.ShouldRetryOperation (NewOCIOperationResponse response1 err1 k) with
    | error p =>
      exact ⟨[.shouldRetryOperation (NewOCIOperationResponse response1 err1 k)], by simp,
        Or.inl (by simp [operationCalls])⟩
    | ok b =>
      cases b with
      | false =>
        exact ⟨[.shouldRetryOperation (NewOCIOperationResponse response1 err1 k)], by simp,
          Or.inl (by simp [operationCalls])⟩
      | true =>
        simp only []
        by_cases hflag : (isBinaryRequest && !seekable) = true
        · rw [if_pos hflag]
          exact ⟨[.shouldRetryOperation (NewOCIOperationResponse response1 err1 k)], by simp,
            Or.inl (by simp [operationCalls])⟩
        · rw [if_neg hflag]
          cases hd : policy.NextDuration (NewOCIOperationResponse response1 err1 k) with
          | error p =>
            exact ⟨[.shouldRetryOperation (NewOCIOperationResponse response1 err1 k),
              .nextDuration (NewOCIOperationResponse response1 err1 k)], by simp,
              Or.inl (by simp [operationCalls])⟩
          | ok duration =>
            simp only []
            by_cases hdl : deadlineExceeded ctx (now k) duration = true
            · rw [if_pos hdl]
              exact ⟨[.shouldRetryOperation (NewOCIOperationResponse response1 err1 k),
                .nextDuration (NewOCIOperationResponse response1 err1 k)], by simp,
                Or.inl (by simp [operationCalls])⟩
            · rw [if_neg hdl]
              exact ⟨.shouldRetryOperation (NewOCIOperationResponse response1 err1 k) ::
                .nextDuration (NewOCIOperationResponse response1 err1 k) ::
                .after duration ::
                retryLoopSteps now ctx operation policy isBinaryRequest seekable pos fuel (k + 1)
                  ((rewind seekable pos rsc).map (fun body =>
                    OCIReadSeekCloser.mk body.stream body.isSeekable
                      (operation k (rewind seekable pos rsc)).offset)), by simp,
                Or.inr (by simp [operationCalls])⟩

/-- When the loop rewinds a seekable body to `pos`, every invocation of its first `fuel` turns
is handed the body at read offset `pos`. -/
theorem retryLoopSteps_bodies (now : Nat → Int) (ctx : Context) (operation : OCIOperation ρ ε)
    (policy : RetryPolicy ρ ε) (isBinaryRequest : Bool) (pos : Int) (hpos : 0 ≤ pos)
    (stream : List Nat) (fuel k : Nat) (offset : Int) :
    ∀ call ∈ operationCalls (retryLoopSteps now ctx operation policy isBinaryRequest true pos
        fuel k (some { stream := stream, isSeekable := true, currentOffset := offset })),
      call.2 = some { stream := stream, isSeekable := true, currentOffset := pos } := by
  induction fuel generalizing k offset with
  | zero => simp [retryLoopSteps, operationCalls]
  | succ fuel ih =>
    by_cases hc : shouldContinueIssuingRequests k policy.MaximumNumberAttempts = true
    · obtain ⟨tail, hsteps, htail⟩ :=
        retryLoopSteps_turn now ctx operation policy isBinaryRequest true pos fuel k
          (some { stream := stream, isSeekable := true, currentOffset := offset }) hc
      rw [hsteps, operationCalls_turn, rewind_seekable stream offset pos hpos]
      intro call hcall
      rcases List.mem_cons.mp hcall with rfl | hcall
      · rfl
      · rcases htail with hnil | hnext
        · rw [hnil] at hcall
          cases hcall
        · rw [hnext, rewind_seekable stream offset pos hpos] at hcall
          exact ih _ _ call hcall
    · simp [retryLoopSteps, hc, operationCalls]

/-- An attempt that hands over: the steps of one turn of the loop. -/
theorem retryLoopSteps_proceeds (now : Nat → Int) (ctx : Context)
    (request : OCIRetryableRequest) (operation : OCIOperation ρ ε) (policy : RetryPolicy ρ ε)
    (fuel j : Nat)
    (hcont : shouldContinueIssuingRequests (j + 1) policy.MaximumNumberAttempts = true)
    (h : proceeds now ctx request operation policy (j + 1) = true) :
    retryLoopSteps now ctx operation policy request.BinaryRequestBody.2
        (isSeekable request policy) (curPos request policy) (fuel + 1) (j + 1)
        (bodyAfter request operation policy j) =
      attemptEvents request operation policy (j + 1) ++
        retryLoopSteps now ctx operation policy request.BinaryRequestBody.2
          (isSeekable request policy) (curPos request policy) fuel (j + 2)
          (bodyAfter request operation policy (j + 1)) := by
  rw [retryLoopSteps, if_pos hcont]
  simp only [proceeds, attempt, bodySent_succ] at h
  simp only [attemptEvents, operationResponse, outcome, backoff, attempt, bodySent_succ, bodyAfter]
  cases hres : (operation (j + 1) (rewind (isSeekable request policy) (curPos request policy)
      (bodyAfter request operation policy j))).result with
  | error p => simp [hres] at h
  | ok out =>
    obtain ⟨response1, err1⟩ := out
    simp only [hres] at h ⊢
    cases hs : policy.ShouldRetryOperation (NewOCIOperationResponse response1 err1 (j + 1)) with
    | error p => simp [hs] at h
    | ok b =>
      cases hd : policy.NextDuration (NewOCIOperationResponse response1 err1 (j + 1)) with
      | error p => cases b <;> simp [hs, hd] at h
      | ok duration =>
        cases b with
        | false => simp [hs, hd] at h
        | true =>
          simp only [hs, hd, Bool.and_eq_true, Bool.not_eq_true_eq_eq_false] at h
          simp [h.1, h.2]

/-- When the attempts `1 .. j` each hand over to the next, the first `fuel + j` turns of the
loop are those `j` attempts and the first `fuel` turns from attempt `j + 1` on. -/
theorem RetrySteps_run (now : Nat → Int) (ctx : Context) (request : OCIRetryableRequest)
    (operation : OCIOperation ρ ε) (policy : RetryPolicy ρ ε) (j : Nat)
    (hcont : j = 0 ∨ shouldContinueIssuingRequests j policy.MaximumNumberAttempts = true)
    (h : ∀ k < j + 1, 1 ≤ k → proceeds now ctx request operation policy k = true) (fuel : Nat) :
    RetrySteps (fuel + j) now ctx request operation policy =
      runEvents request operation policy j ++
        retryLoopSteps now ctx operation policy request.BinaryRequestBody.2
          (isSeekable request policy) (curPos request policy) fuel (j + 1)
          (bodyAfter request operation policy j) := by
  induction j generalizing fuel with
  | zero => simp [RetrySteps, runEvents, bodyAfter]
  | succ j ih =>
    have hj : shouldContinueIssuingRequests (j + 1) policy.MaximumNumberAttempts = true := by
      rcases hcont with h0 | h1
      · omega
      · exact h1
    have hprev : j = 0 ∨ shouldContinueIssuingRequests j policy.MaximumNumberAttempts = true :=
      Or.inr (shouldContinueIssuingRequests_mono (Nat.le_succ j) hj)
    have hrun := ih hprev (fun k hk h1 => h k (by omega) h1) (fuel + 1)
    have hstep := retryLoopSteps_proceeds now ctx request operation policy fuel j hj
      (h (j + 1) (by omega) (by omega))
    rw [show fuel + (j + 1) = fuel + 1 + j by omega, hrun, hstep, runEvents, List.append_assoc]

/-- When the attempts `1 .. j` each hand over and attempt `j + 1` is within the budget, the
invocation numbered `j + 1` of the run is made, by attempt `j + 1`, with the body that attempt
hands over. -/
theorem RetrySteps_invocation (now : Nat → Int) (ctx : Context) (request : OCIRetryableRequest)
    (operation : OCIOperation ρ ε) (policy : RetryPolicy ρ ε) (j fuel : Nat)
    (hbudget : shouldContinueIssuingRequests (j + 1) policy.MaximumNumberAttempts = true)
    (h : ∀ k < j + 1, 1 ≤ k → proceeds now ctx request operation policy k = true) :
    (operationCalls (RetrySteps (fuel + (j + 1)) now ctx request operation policy))[j]? =
      some (j + 1, bodySent request operation policy (j + 1)) := by
  have hprev : j = 0 ∨ shouldContinueIssuingRequests j policy.MaximumNumberAttempts = true :=
    Or.inr (shouldContinueIssuingRequests_mono (Nat.le_succ j) hbudget)
  obtain ⟨tail, hsteps, -⟩ := retryLoopSteps_turn now ctx operation policy
    request.BinaryRequestBody.2 (isSeekable request policy) (curPos request policy) fuel (j + 1)
    (bodyAfter request operation policy j) hbudget
  have hlen : (operationCalls (runEvents request operation policy j)).length = j := by
    simp [operationCalls_runEvents]
  rw [show fuel + (j + 1) = fuel + 1 + j by omega,
    RetrySteps_run now ctx request operation policy j hprev h (fuel + 1), hsteps,
    operationCalls_append, operationCalls_turn,
    List.getElem?_append_right (by rw [hlen]), hlen]
  simp [bodySent_succ]

end Loop

/-! ## Lemmas on the default policy -/

section DefaultPolicy

variable {ρ ε : Type} [OCIResponse ρ]

theorem defaultRetryPolicy_network (C : ErrorClassifier ε) (response : Option ρ) (err : ε)
    (k : Nat) (h : C.IsNetworkError (some err) = true) :
    defaultRetryPolicy C (NewOCIOperationResponse response (some err) k) = .ok true := by
  simp [defaultRetryPolicy, defaultRetryPolicyError, NewOCIOperationResponse, h]

theorem defaultRetryPolicy_success (C : ErrorClassifier ε) (response : ρ) (raw : HTTPResponse)
    (k : Nat) (hraw : OCIResponse.HTTPResponse response = some raw)
    (h : 200 ≤ raw.StatusCode ∧ raw.StatusCode < 300) :
    defaultRetryPolicy C (NewOCIOperationResponse (some response) (none : Option ε) k) =
      .ok false := by
  have h1 : 199 < raw.StatusCode := by omega
  simp [defaultRetryPolicy, NewOCIOperationResponse, StatusCode, hraw, h1, h.2]

/-- The classes of the sample classifier are disjoint. -/
theorem sampleClassifier_classesDisjoint : sampleClassifier.classesDisjoint := by
  intro err h
  cases err <;> simp_all [sampleClassifier]

end DefaultPolicy

/-! ## Lemmas on the backoff -/

section Backoff

theorem truncate_of_nonneg {x : ℚ} (h : 0 ≤ x) : truncate x = ⌊x⌋ := by
  rw [truncate, Rat.floor_def, Int.tdiv_eq_ediv (Rat.num_nonneg.mpr h) (by positivity)]

theorem floor_le_roundHalfEven (q : ℚ) : ⌊q⌋ ≤ roundHalfEven q := by
  unfold roundHalfEven
  split_ifs <;> omega

theorem roundHalfEven_le_floor_add_one (q : ℚ) : roundHalfEven q ≤ ⌊q⌋ + 1 := by
  unfold roundHalfEven
  split_ifs <;> omega

/-- Within one binade the spacing of the `float64` numbers is fixed. -/
theorem float64_of_binade (e : ℤ) (x : ℚ) (h1 : (2 : ℚ) ^ e ≤ x) (h2 : x < (2 : ℚ) ^ (e + 1)) :
    float64 x = roundHalfEven (x / 2 ^ (e - 52)) * 2 ^ (e - 52) := by
  have hpos : 0 < x := lt_of_lt_of_le (by positivity) h1
  have hlog : Int.log 2 |x| = e := by
    rw [abs_of_pos hpos]
    apply le_antisymm
    · have := (Int.lt_zpow_iff_log_lt (b := 2) (by norm_num) hpos (x := e + 1)).mp
        (by exact_mod_cast h2)
      omega
    · exact (Int.zpow_le_iff_le_log (b := 2) (by norm_num) hpos).mp (by exact_mod_cast h1)
  rw [float64, if_neg hpos.ne', hlog]

/-- A sum between the integers `s` and `s + 1` of one binade is rounded to a `float64` between
`s` and `s + 1`, both included. -/
theorem float64_between (s : ℤ) (k : ℕ) (x : ℚ) (hlo : (2 : ℚ) ^ ((52 : ℤ) - k) ≤ s)
    (hhi : (s : ℚ) + 1 ≤ (2 : ℚ) ^ ((52 : ℤ) - k + 1)) (h1 : (s : ℚ) ≤ x) (h2 : x < s + 1) :
    (s : ℚ) ≤ float64 x ∧ float64 x ≤ s + 1 := by
  have hulp : (2 : ℚ) ^ ((52 : ℤ) - k - 52) = ((2 : ℚ) ^ k)⁻¹ := by
    rw [show (52 : ℤ) - k - 52 = -(k : ℤ) by ring, zpow_neg, zpow_natCast]
  have hK : (0 : ℚ) < 2 ^ k := by positivity
  rw [float64_of_binade ((52 : ℤ) - k) x (le_trans hlo h1) (lt_of_lt_of_le h2 hhi), hulp,
    div_inv_eq_mul]
  have hfloor_lo : s * 2 ^ k ≤ ⌊x * 2 ^ k⌋ := by
    rw [Int.le_floor]
    push_cast
    exact mul_le_mul_of_nonneg_right h1 hK.le
  have hfloor_hi : ⌊x * 2 ^ k⌋ < (s + 1) * 2 ^ k := by
    rw [Int.floor_lt]
    push_cast
    exact mul_lt_mul_of_pos_right h2 hK
  have hlo2 := floor_le_roundHalfEven (x * 2 ^ k)
  have hhi2 := roundHalfEven_le_floor_add_one (x * 2 ^ k)
  have hA : ((s * 2 ^ k : ℤ) : ℚ) ≤ (roundHalfEven (x * 2 ^ k) : ℚ) := by
    exact_mod_cast le_trans hfloor_lo hlo2
  have hB : (roundHalfEven (x * 2 ^ k) : ℚ) ≤ (((s + 1) * 2 ^ k : ℤ) : ℚ) := by
    exact_mod_cast (show roundHalfEven (x * 2 ^ k) ≤ (s + 1) * 2 ^ k by omega)
  push_cast at hA hB
  constructor
  · rw [le_mul_inv_iff₀ hK]
    exact hA
  · rw [mul_inv_le_iff₀ hK]
    exact hB

theorem truncate_float64_between (s : ℤ) (k : ℕ) (x : ℚ) (hlo : (2 : ℚ) ^ ((52 : ℤ) - k) ≤ s)
    (hhi : (s : ℚ) + 1 ≤ (2 : ℚ) ^ ((52 : ℤ) - k + 1)) (h1 : (s : ℚ) ≤ x) (h2 : x < s + 1) :
    s ≤ truncate (float64 x) ∧ truncate (float64 x) ≤ s + 1 := by
  obtain ⟨hA, hB⟩ := float64_between s k x hlo hhi h1 h2
  have hs : (0 : ℚ) ≤ s := le_trans (by positivity) hlo
  rw [truncate_of_nonneg (le_trans hs hA)]
  constructor
  · exact Int.le_floor.mpr hA
  · have := le_trans (Int.floor_le (float64 x)) hB
    exact_mod_cast this

theorem sleepTime_of_pos {N : ℕ} (hN : 1 ≤ N) : sleepTime N = (2 : ℚ) ^ (N - 1) := by
  rw [sleepTime, if_neg (by omega)]

/-- The backoff of attempt `N ≥ 1` for a jitter in `[0, 1)` lies between the capped power of
two and the next whole second, both included. -/
theorem exponentialBackoffWithJitter_between {ρ ε : Type} (jitter : ℚ)
    (r : OCIOperationResponse ρ ε) (hN : 1 ≤ r.AttemptNumber) (h0 : 0 ≤ jitter)
    (h1 : jitter < 1) :
    ((min (2 ^ (r.AttemptNumber - 1)) 30 : ℕ) : ℤ) * Second ≤
        exponentialBackoffWithJitter jitter r ∧
      exponentialBackoffWithJitter jitter r ≤
        (((min (2 ^ (r.AttemptNumber - 1)) 30 : ℕ) : ℤ) + 1) * Second := by
  have hSecond : (0 : ℤ) ≤ Second := by decide
  have key : ∀ (s : ℤ) (k : ℕ) (x : ℚ), (2 : ℚ) ^ ((52 : ℤ) - k) ≤ s →
      (s : ℚ) + 1 ≤ (2 : ℚ) ^ ((52 : ℤ) - k + 1) → (s : ℚ) ≤ x → x < s + 1 →
      s * Second ≤ truncate (float64 x) * Second ∧
        truncate (float64 x) * Second ≤ (s + 1) * Second := by
    intro s k x hlo hhi hx1 hx2
    obtain ⟨hA, hB⟩ := truncate_float64_between s k x hlo hhi hx1 hx2
    exact ⟨Int.mul_le_mul_of_nonneg_right hA hSecond, Int.mul_le_mul_of_nonneg_right hB hSecond⟩
  generalize hn : r.AttemptNumber = N at hN
  unfold exponentialBackoffWithJitter
  rw [hn, sleepTime_of_pos hN]
  by_cases hsmall : N ≤ 5
  · interval_cases N
    · have := key 1 52 (1 + jitter) (by norm_num) (by norm_num) (by simpa using h0)
        (by push_cast; linarith)
      simpa [maxSleepBetween] using this
    · have := key 2 51 (2 + jitter) (by norm_num) (by norm_num) (by simpa using h0)
        (by push_cast; linarith)
      simpa [maxSleepBetween] using this
    · have := key 4 50 (4 + jitter) (by norm_num) (by norm_num) (by simpa using h0)
        (by push_cast; linarith)
      norm_num [maxSleepBetween] at this ⊢
      exact this
    · have := key 8 49 (8 + jitter) (by norm_num) (by norm_num) (by simpa using h0)
        (by push_cast; linarith)
      norm_num [maxSleepBetween] at this ⊢
      exact this
    · have := key 16 48 (16 + jitter) (by norm_num) (by norm_num) (by simpa using h0)
        (by push_cast; linarith)
      norm_num [maxSleepBetween] at this ⊢
      exact this
  · have hpow : 2 ^ 5 ≤ 2 ^ (N - 1) := Nat.pow_le_pow_right (by decide) (by omega)
    have hbig : ¬ (2 : ℚ) ^ (N - 1) < maxSleepBetween := by
      have : ((2 ^ 5 : ℕ) : ℚ) ≤ ((2 ^ (N - 1) : ℕ) : ℚ) := by exact_mod_cast hpow
      push_cast at this
      rw [maxSleepBetween]
      linarith
    have hmin : min (2 ^ (N - 1)) 30 = 30 := by omega
    rw [if_neg hbig, hmin]
    have := key 30 48 (maxSleepBetween + jitter) (by norm_num) (by norm_num)
      (by rw [maxSleepBetween]; push_cast; linarith) (by rw [maxSleepBetween]; push_cast; linarith)
    simpa using this

theorem roundHalfEven_intCast (n : ℤ) : roundHalfEven (n : ℚ) = n := by
  simp [roundHalfEven]

/-- A number with a 53-bit significand is a `float64`: rounding leaves it as it is. -/
theorem float64_of_exact (e n : ℤ) (x : ℚ) (h1 : (2 : ℚ) ^ e ≤ x) (h2 : x < (2 : ℚ) ^ (e + 1))
    (hx : x / 2 ^ (e - 52) = n) : float64 x = x := by
  rw [float64_of_binade e x h1 h2, hx, roundHalfEven_intCast, ← hx]
  have : (2 : ℚ) ^ (e - 52) ≠ 0 := by positivity
  field_simp

/-- The largest `float64` below 1 is `1 - 2⁻⁵³`. -/
theorem float64_largest_below_one : float64 (1 - 1 / 2 ^ 53) = 1 - 1 / 2 ^ 53 :=
  float64_of_exact (-1) (2 ^ 53 - 1) _ (by norm_num) (by norm_num) (by norm_num)

/-- In `float64`, `1 + (1 - 2⁻⁵³)` is 2: the exact sum is half-way between the neighbours
`2 - 2⁻⁵²` and `2`, and the tie goes to the even significand. -/
theorem float64_one_add_largest_below_one : float64 (1 + (1 - 1 / 2 ^ 53)) = 2 := by
  rw [float64_of_binade 0 _ (by norm_num) (by norm_num)]
  have hfloor : ⌊((1 : ℚ) + (1 - 1 / 2 ^ 53)) / 2 ^ ((0 : ℤ) - 52)⌋ = 2 ^ 53 - 1 := by
    rw [Int.floor_eq_iff]
    constructor <;> norm_num
  have hround : roundHalfEven (((1 : ℚ) + (1 - 1 / 2 ^ 53)) / 2 ^ ((0 : ℤ) - 52)) = 2 ^ 53 := by
    unfold roundHalfEven
    rw [hfloor]
    norm_num
  rw [hround]
  norm_num

theorem truncate_intCast (n : ℤ) (h : 0 ≤ n) : truncate (n : ℚ) = n := by
  rw [truncate_of_nonneg (by exact_mod_cast h), Int.floor_intCast]

theorem sleepTime_one : sleepTime 1 = 1 := by
  rw [sleepTime_of_pos (Nat.le_refl 1)]
  norm_num

theorem roundHalfEven_of_lt_half (q : ℚ) (h : q - ⌊q⌋ < 1 / 2) : roundHalfEven q = ⌊q⌋ := by
  rw [roundHalfEven, if_pos h]

/-- A sum between the integer `s` and `s + 1`, and more than half a spacing below `s + 1`, is
rounded to a `float64` below `s + 1`. -/
theorem float64_below_next (s : ℤ) (k : ℕ) (x : ℚ) (hlo : (2 : ℚ) ^ ((52 : ℤ) - k) ≤ s)
    (hhi : (s : ℚ) + 1 ≤ (2 : ℚ) ^ ((52 : ℤ) - k + 1)) (h1 : (s : ℚ) ≤ x)
    (h2 : x < s + 1 - 1 / 2 ^ (k + 1)) :
    (s : ℚ) ≤ float64 x ∧ float64 x < s + 1 := by
  have hK : (0 : ℚ) < 2 ^ k := by positivity
  have hstep : (0 : ℚ) < 1 / 2 ^ (k + 1) := by positivity
  have hx : x < s + 1 := by linarith
  refine ⟨(float64_between s k x hlo hhi h1 hx).1, ?_⟩
  have hulp : (2 : ℚ) ^ ((52 : ℤ) - k - 52) = ((2 : ℚ) ^ k)⁻¹ := by
    rw [show (52 : ℤ) - k - 52 = -(k : ℤ) by ring, zpow_neg, zpow_natCast]
  rw [float64_of_binade ((52 : ℤ) - k) x (le_trans hlo h1) (lt_of_lt_of_le hx hhi), hulp,
    div_inv_eq_mul]
  have hq : x * 2 ^ k < ((s + 1) * 2 ^ k : ℤ) - 1 / 2 := by
    have hmul := mul_lt_mul_of_pos_right h2 hK
    have hhalf : (1 : ℚ) / 2 ^ (k + 1) * 2 ^ k = 1 / 2 := by
      rw [pow_succ]
      field_simp
    push_cast
    nlinarith [hmul, hhalf]
  have hfloor_le : (⌊x * 2 ^ k⌋ : ℚ) ≤ x * 2 ^ k := Int.floor_le _
  have hF : ⌊x * 2 ^ k⌋ ≤ (s + 1) * 2 ^ k - 1 := by
    have : (⌊x * 2 ^ k⌋ : ℚ) < (((s + 1) * 2 ^ k : ℤ) : ℚ) := by linarith
    have : ⌊x * 2 ^ k⌋ < (s + 1) * 2 ^ k := by exact_mod_cast this
    omega
  have hround : roundHalfEven (x * 2 ^ k) ≤ (s + 1) * 2 ^ k - 1 := by
    by_cases hcase : ⌊x * 2 ^ k⌋ = (s + 1) * 2 ^ k - 1
    · have hfrac : x * 2 ^ k - ⌊x * 2 ^ k⌋ < 1 / 2 := by
        rw [hcase]
        push_cast at hq ⊢
        linarith
      rw [roundHalfEven_of_lt_half _ hfrac]
      exact hF
    · have := roundHalfEven_le_floor_add_one (x * 2 ^ k)
      omega
  have hcast : (roundHalfEven (x * 2 ^ k) : ℚ) ≤ (((s + 1) * 2 ^ k - 1 : ℤ) : ℚ) := by
    exact_mod_cast hround
  push_cast at hcast
  rw [mul_inv_lt_iff₀ hK]
  linarith

theorem truncate_float64_below_next (s : ℤ) (k : ℕ) (x : ℚ)
    (hlo : (2 : ℚ) ^ ((52 : ℤ) - k) ≤ s) (hhi : (s : ℚ) + 1 ≤ (2 : ℚ) ^ ((52 : ℤ) - k + 1))
    (h1 : (s : ℚ) ≤ x) (h2 : x < s + 1 - 1 / 2 ^ (k + 1)) :
    truncate (float64 x) = s := by
  obtain ⟨hA, hB⟩ := float64_below_next s k x hlo hhi h1 h2
  have hs : (0 : ℚ) ≤ s := le_trans (by positivity) hlo
  rw [truncate_of_nonneg (le_trans hs hA), Int.floor_eq_iff]
  exact ⟨hA, hB⟩

/-- The backoff of attempt `N ≥ 1` for a jitter in `[0, 1 - 2⁻⁴⁹)` is the capped power of two,
in whole seconds. -/
theorem exponentialBackoffWithJitter_eq {ρ ε : Type} (jitter : ℚ)
    (r : OCIOperationResponse ρ ε) (hN : 1 ≤ r.AttemptNumber) (h0 : 0 ≤ jitter)
    (h1 : jitter < 1 - 1 / 2 ^ 49) :
    exponentialBackoffWithJitter jitter r =
      ((min (2 ^ (r.AttemptNumber - 1)) 30 : ℕ) : ℤ) * Second := by
  generalize hn : r.AttemptNumber = N at hN
  unfold exponentialBackoffWithJitter
  rw [hn, sleepTime_of_pos hN]
  by_cases hsmall : N ≤ 5
  · interval_cases N
    · have := truncate_float64_below_next 1 52 (1 + jitter) (by norm_num) (by norm_num)
        (by simpa using h0) (by push_cast; norm_num at h1 ⊢; linarith)
      norm_num [maxSleepBetween] at this ⊢
      simp [this]
    · have := truncate_float64_below_next 2 51 (2 + jitter) (by norm_num) (by norm_num)
        (by simpa using h0) (by push_cast; norm_num at h1 ⊢; linarith)
      norm_num [maxSleepBetween] at this ⊢
      simp [this]
    · have := truncate_float64_below_next 4 50 (4 + jitter) (by norm_num) (by norm_num)
        (by simpa using h0) (by push_cast; norm_num at h1 ⊢; linarith)
      norm_num [maxSleepBetween] at this ⊢
      simp [this]
    · have := truncate_float64_below_next 8 49 (8 + jitter) (by norm_num) (by norm_num)
        (by simpa using h0) (by push_cast; norm_num at h1 ⊢; linarith)
      norm_num [maxSleepBetween] at this ⊢
      simp [this]
    · have := truncate_float64_below_next 16 48 (16 + jitter) (by norm_num) (by norm_num)
        (by simpa using h0) (by push_cast; norm_num at h1 ⊢; linarith)
      norm_num [maxSleepBetween] at this ⊢
      simp [this]
  · have hpow : 2 ^ 5 ≤ 2 ^ (N - 1) := Nat.pow_le_pow_right (by decide) (by omega)
    have hbig : ¬ (2 : ℚ) ^ (N - 1) < maxSleepBetween := by
      have : ((2 ^ 5 : ℕ) : ℚ) ≤ ((2 ^ (N - 1) : ℕ) : ℚ) := by exact_mod_cast hpow
      push_cast at this
      rw [maxSleepBetween]
      linarith
    have hmin : min (2 ^ (N - 1)) 30 = 30 := by omega
    rw [if_neg hbig, hmin]
    have := truncate_float64_below_next 30 48 (maxSleepBetween + jitter) (by norm_num)
      (by norm_num) (by rw [maxSleepBetween]; push_cast; linarith)
      (by rw [maxSleepBetween]; push_cast; norm_num at h1 ⊢; linarith)
    rw [this]
    rfl

/-- The backoff of attempt `N ≥ 1` for a jitter in `[0, 1)` is the capped power of two or one
more, in whole seconds. -/
theorem exponentialBackoffWithJitter_whole {ρ ε : Type} (jitter : ℚ)
    (r : OCIOperationResponse ρ ε) (hN : 1 ≤ r.AttemptNumber) (h0 : 0 ≤ jitter)
    (h1 : jitter < 1) :
    exponentialBackoffWithJitter jitter r =
        ((min (2 ^ (r.AttemptNumber - 1)) 30 : ℕ) : ℤ) * Second ∨
      exponentialBackoffWithJitter jitter r =
        (((min (2 ^ (r.AttemptNumber - 1)) 30 : ℕ) : ℤ) + 1) * Second := by
  obtain ⟨hlo, hhi⟩ := exponentialBackoffWithJitter_between jitter r hN h0 h1
  have hSecond : (0 : ℤ) < Second := by decide
  obtain ⟨t, ht⟩ : ∃ t : ℤ, exponentialBackoffWithJitter jitter r = t * Second := by
    unfold exponentialBackoffWithJitter
    split <;> exact ⟨_, rfl⟩
  rw [ht] at hlo hhi ⊢
  have h1 := Int.le_of_mul_le_mul_right hlo hSecond
  have h2 := Int.le_of_mul_le_mul_right hhi hSecond
  have : t = ((min (2 ^ (r.AttemptNumber - 1)) 30 : ℕ) : ℤ) ∨
      t = ((min (2 ^ (r.AttemptNumber - 1)) 30 : ℕ) : ℤ) + 1 := by omega
  rcases this with h | h
  · exact Or.inl (by rw [h])
  · exact Or.inr (by rw [h])

/-- With the largest `float64` below 1 as jitter, the backoff of attempt 1 is 2 seconds. -/
theorem exponentialBackoffWithJitter_largest_jitter {ρ ε : Type} (r : OCIOperationResponse ρ ε)
    (hr : r.AttemptNumber = 1) :
    exponentialBackoffWithJitter (1 - 1 / 2 ^ 53) r = 2 * Second := by
  have h : sleepTime 1 < maxSleepBetween := by rw [sleepTime_one, maxSleepBetween]; norm_num
  have hsum : float64 (sleepTime 1 + (1 - 1 / 2 ^ 53)) = ((2 : ℤ) : ℚ) := by
    rw [sleepTime_one, float64_one_add_largest_below_one]
    norm_num
  simp only [exponentialBackoffWithJitter, hr, if_pos h, hsum, truncate_intCast 2 (by decide)]

end Backoff

/-! ## The claims -/

section Claims

variable {ρ ε : Type}

/-- C1: with `MaximumNumberAttempts = 1`, for every request, context, clock and operation, and
whatever `ShouldRetryOperation` and `NextDuration` do, `Retry` delivers a result and has
invoked the operation exactly once. -/
theorem Retry_single_attempt_invokes_once (now : Nat → Int) (ctx : Context)
    (request : OCIRetryableRequest) (operation : OCIOperation ρ ε) (policy : RetryPolicy ρ ε)
    (fuel : Nat) (hmax : policy.MaximumNumberAttempts = 1) :
    ∃ out, Retry (fuel + 1) now ctx request operation policy = some out ∧
      invocations out.2 = 1 := by
  have hstop : shouldContinueIssuingRequests (1 + 1) policy.MaximumNumberAttempts = false := by
    simp [shouldContinueIssuingRequests, UnlimitedNumAttemptsValue, hmax]
  unfold Retry
  rw [retryLoop, if_pos (shouldContinueIssuingRequests_one _)]
  simp only []
  split
  · exact ⟨_, rfl, by simp [invocations_append, invocations_rewindEvents, invocations]⟩
  · split
    · exact ⟨_, rfl, by simp [invocations_append, invocations_rewindEvents, invocations]⟩
    · exact ⟨_, rfl, by simp [invocations_append, invocations_rewindEvents, invocations]⟩
    · split
      · exact ⟨_, rfl, by simp [invocations_append, invocations_rewindEvents, invocations]⟩
      · split
        · exact ⟨_, rfl, by simp [invocations_append, invocations_rewindEvents, invocations]⟩
        · split
          · exact ⟨_, rfl, by simp [invocations_append, invocations_rewindEvents, invocations]⟩
          · rw [retryLoop_stop _ _ _ _ _ _ _ _ _ _ _ _ hstop]
            exact ⟨_, rfl, by simp [invocations_append, invocations_rewindEvents, invocations]⟩

/-- C1, at a policy of one attempt that always asks for a retry, on a request without a body. -/
theorem Retry_single_attempt_invokes_once_witness :
    (alwaysRetryPolicy 1).MaximumNumberAttempts = 1 ∧
      ∃ out, Retry (0 + 1) (fun _ => 0) { Deadline := none } ListEmailDomainsRequest
          timeoutOperation (alwaysRetryPolicy 1) = some out ∧ invocations out.2 = 1 :=
  ⟨rfl, Retry_single_attempt_invokes_once _ _ _ _ _ 0 rfl⟩

/-- C2: when attempts `1 .. n-1` each hand over to the next (`ShouldRetryOperation` answers
true and no hard stop is hit) and attempt `n`, which is within the attempt budget, returns
`(response, err)` on which `ShouldRetryOperation` answers false, `Retry` has invoked the
operation exactly `n` times and delivers exactly `(response, err)`. -/
theorem Retry_returns_attempt_on_false (now : Nat → Int) (ctx : Context)
    (request : OCIRetryableRequest) (operation : OCIOperation ρ ε) (policy : RetryPolicy ρ ε)
    (fuel n : Nat) (hn : 1 ≤ n)
    (hbudget : shouldContinueIssuingRequests n policy.MaximumNumberAttempts = true)
    (hretry : ∀ k < n, 1 ≤ k → proceeds now ctx request operation policy k = true)
    (response : Option ρ) (err : Option ε)
    (hop : (attempt request operation policy n).result = .ok (response, err))
    (hstop : policy.ShouldRetryOperation (NewOCIOperationResponse response err n) = .ok false) :
    ∃ tr, Retry (fuel + n) now ctx request operation policy =
        some ({ response := response, err := err.map .operation }, tr) ∧
      invocations tr = n := by
  obtain ⟨j, rfl⟩ : ∃ j, n = j + 1 := ⟨n - 1, by omega⟩
  rw [show fuel + (j + 1) = fuel + 1 + j by omega,
    Retry_of_stop now ctx request operation policy fuel j hbudget hretry response err hop hstop]
  exact ⟨_, rfl, by
    simp [invocations_append, invocations_runEvents, invocations_rewindEvents, invocations]⟩

/-- C2, at `n = 2` with the default policy: a timeout on attempt 1, a 200 on attempt 2. -/
theorem Retry_returns_attempt_on_false_witness :
    ∃ tr, Retry (0 + 2) (fun _ => 0) { Deadline := none } ListEmailDomainsRequest
        (fun k _ =>
          { result := if k = 1 then .ok (none, some SampleError.timeout)
              else .ok (some (sampleResponse 200), none)
            offset := 0 })
        (DefaultRetryPolicy sampleClassifier (fun _ => 0)) =
        some ({ response := some (sampleResponse 200),
                err := (none : Option SampleError).map .operation }, tr) ∧
      invocations tr = 2 :=
  Retry_returns_attempt_on_false _ _ _ _ _ 0 2 (by decide) (by decide)
    (by
      intro k hk h1
      obtain rfl : k = 1 := by omega
      rfl)
    (some (sampleResponse 200)) none rfl rfl

/-- C3: for every policy, whatever its `MaximumNumberAttempts`, and every request that has a
binary body which is not seekable: when attempt 1 returns `(response, err)` and
`ShouldRetryOperation` answers true on it, `Retry` has invoked the operation exactly once, has
neither evaluated `NextDuration` nor suspended, and delivers `response` with a
`NonSeekableRequestRetryFailure` that wraps `err`. -/
theorem Retry_non_seekable_body_fails_after_one_attempt (now : Nat → Int) (ctx : Context)
    (request : OCIRetryableRequest) (operation : OCIOperation ρ ε) (policy : RetryPolicy ρ ε)
    (fuel : Nat) (hbinary : request.BinaryRequestBody.2 = true)
    (hbody : Seekable request.BinaryRequestBody.1 = false)
    (response : Option ρ) (err : Option ε)
    (hop : (operation 1 request.BinaryRequestBody.1).result = .ok (response, err))
    (hretry : policy.ShouldRetryOperation (NewOCIOperationResponse response err 1) = .ok true) :
    ∃ tr, Retry (fuel + 1) now ctx request operation policy =
        some ({ response := response,
                err := some (.NonSeekableRequestRetryFailure err) }, tr) ∧
      invocations tr = 1 ∧ nextDurations tr = 0 ∧ sleeps tr = [] := by
  have hseek : isSeekable request policy = false := by simp [isSeekable, hbody]
  unfold Retry
  rw [retryLoop, if_pos (shouldContinueIssuingRequests_one _)]
  simp only [hseek, hbinary, rewind, rewindEvents, Bool.false_eq_true, if_false, hop, hretry]
  exact ⟨_, rfl, by simp [invocations], by simp [nextDurations], by simp [sleeps]⟩

/-- C3, at an upload that cannot be rewound, with unlimited attempts. -/
theorem Retry_non_seekable_body_fails_after_one_attempt_witness :
    ∃ tr, Retry (0 + 1) (fun _ => 0) { Deadline := none } (sampleUpload false) timeoutOperation
        (alwaysRetryPolicy 0) =
        some ({ response := none,
                err := some (.NonSeekableRequestRetryFailure (some SampleError.timeout)) }, tr) ∧
      invocations tr = 1 ∧ nextDurations tr = 0 ∧ sleeps tr = [] :=
  Retry_non_seekable_body_fails_after_one_attempt (fun _ => 0) { Deadline := none }
    (sampleUpload false) timeoutOperation (alwaysRetryPolicy 0) 0 rfl rfl none
    (some SampleError.timeout) rfl rfl

/-- C4 does not hold of the code: with `MaximumNumberAttempts = 1` the test
`policy.MaximumNumberAttempts != uint(1)` keeps `Retry` from asking `rsc.Seekable()`, the local
`isSeekable` stays false, and for a seekable binary body and a `ShouldRetryOperation` that
answers true `Retry` delivers a `NonSeekableRequestRetryFailure` that wraps the error of
attempt 1. -/
theorem Retry_single_attempt_seekable_body_nonSeekable :
    Seekable (sampleUpload true).BinaryRequestBody.1 = true ∧
      (Retry 1 (fun _ => 0) { Deadline := none } (sampleUpload true) timeoutOperation
          (alwaysRetryPolicy 1)).map (fun out => out.1) =
        some { response := none,
               err := some (.NonSeekableRequestRetryFailure (some SampleError.timeout)) } :=
  ⟨rfl, rfl⟩

/-- Where the body is asked whether it is seekable: for a request without a binary body
(whatever the policy), and for a request whose body is seekable under a policy with
`MaximumNumberAttempts ≠ 1`, the error `Retry` delivers is never a
`NonSeekableRequestRetryFailure`. -/
theorem Retry_never_nonSeekable_when_rewindable (now : Nat → Int) (ctx : Context)
    (request : OCIRetryableRequest) (operation : OCIOperation ρ ε) (policy : RetryPolicy ρ ε)
    (fuel : Nat) (wrapped : Option ε)
    (hbody : request.BinaryRequestBody.2 = false ∨
      (Seekable request.BinaryRequestBody.1 = true ∧ policy.MaximumNumberAttempts ≠ 1)) :
    (Retry fuel now ctx request operation policy).map (fun out => out.1.err) ≠
      some (some (.NonSeekableRequestRetryFailure wrapped)) := by
  intro h
  simp only [Option.map_eq_some'] at h
  obtain ⟨out, hout, herr⟩ := h
  have hstop := retryLoop_nonSeekable _ _ _ _ _ _ _ _ _ _ _ _ out wrapped hout herr
  rcases hbody with hb | ⟨hs, hm⟩
  · rw [hb] at hstop
    exact Bool.false_ne_true hstop.1
  · have : isSeekable request policy = true := by simp [isSeekable, hs, hm]
    rw [this] at hstop
    exact Bool.false_ne_true hstop.2.symm

/-- A seekable upload under a policy of two attempts is not stopped for its body. -/
theorem Retry_never_nonSeekable_when_rewindable_witness :
    ((sampleUpload true).BinaryRequestBody.2 = false ∨
        (Seekable (sampleUpload true).BinaryRequestBody.1 = true ∧
          (alwaysRetryPolicy 2).MaximumNumberAttempts ≠ 1)) ∧
      (Retry 2 (fun _ => 0) { Deadline := none } (sampleUpload true) timeoutOperation
          (alwaysRetryPolicy 2)).map (fun out => out.1.err) ≠
        some (some (.NonSeekableRequestRetryFailure (some SampleError.timeout))) :=
  ⟨Or.inr ⟨rfl, by decide⟩,
    Retry_never_nonSeekable_when_rewindable (fun _ => 0) { Deadline := none } (sampleUpload true)
      timeoutOperation (alwaysRetryPolicy 2) 2 (some SampleError.timeout)
      (Or.inr ⟨rfl, by decide⟩)⟩

/-- C5 does not hold of the code: with `MaximumNumberAttempts = 1` and a seekable binary body,
a deadline 2 seconds away and a backoff of 5 seconds, `Retry` does not deliver
`DeadlineExceededByBackoff` but a `NonSeekableRequestRetryFailure`: the test
`policy.MaximumNumberAttempts != uint(1)` has left `isSeekable` false, and the stop for a body
that cannot be rewound comes before the deadline is looked at. -/
theorem Retry_single_attempt_seekable_body_no_deadline_error :
    Seekable (sampleUpload true).BinaryRequestBody.1 = true ∧
      (alwaysRetryPolicy 1).NextDuration (NewOCIOperationResponse none (some .timeout) 1) =
        .ok (5 * Second) ∧
      (Retry 1 (fun _ => 0) { Deadline := some (2 * Second) } (sampleUpload true)
          timeoutOperation (alwaysRetryPolicy 1)).map (fun out => out.1.err) =
        some (some (.NonSeekableRequestRetryFailure (some SampleError.timeout))) ∧
      (Retry 1 (fun _ => 0) { Deadline := some (2 * Second) } (sampleUpload true)
          timeoutOperation (alwaysRetryPolicy 1)).map (fun out => out.1.err) ≠
        some (some .DeadlineExceededByBackoff) :=
  ⟨rfl, rfl, rfl, by decide⟩

/-- What the goroutine sends where the body is asked whether it is seekable: let the request
have no binary body, or a seekable one under a policy with `MaximumNumberAttempts ≠ 1`. When
attempts `1 .. n-1` each hand over, attempt `n` is within the budget and returns
`(response, err)`, `ShouldRetryOperation` answers true on it, `NextDuration` gives `duration`,
and the context has a deadline that `now + duration` is after, then the goroutine sends
`response` with `DeadlineExceededByBackoff`, has invoked the operation exactly `n` times, and
has suspended only for the backoffs of attempts `1 .. n-1`. When the context has no deadline,
it never sends `DeadlineExceededByBackoff`. -/
theorem Retry_deadline_exceeded_by_backoff (now : Nat → Int) (ctx : Context)
    (request : OCIRetryableRequest) (operation : OCIOperation ρ ε) (policy : RetryPolicy ρ ε)
    (fuel : Nat) :
    (∀ (n : Nat) (response : Option ρ) (err : Option ε) (duration : Duration) (deadline : Int),
      1 ≤ n →
      (request.BinaryRequestBody.2 = false ∨
        (Seekable request.BinaryRequestBody.1 = true ∧ policy.MaximumNumberAttempts ≠ 1)) →
      shouldContinueIssuingRequests n policy.MaximumNumberAttempts = true →
      (∀ k < n, 1 ≤ k → proceeds now ctx request operation policy k = true) →
      (attempt request operation policy n).result = .ok (response, err) →
      policy.ShouldRetryOperation (NewOCIOperationResponse response err n) = .ok true →
      policy.NextDuration (NewOCIOperationResponse response err n) = .ok duration →
      ctx.Deadline = some deadline →
      deadline < now n + duration →
      ∃ tr, Retry (fuel + n) now ctx request operation policy =
          some ({ response := response, err := some .DeadlineExceededByBackoff }, tr) ∧
        invocations tr = n ∧
        sleeps tr = (List.range (n - 1)).map (fun i => backoff request operation policy (i + 1))) ∧
    (ctx.Deadline = none →
      (Retry fuel now ctx request operation policy).map (fun out => out.1.err) ≠
        some (some .DeadlineExceededByBackoff)) := by
  constructor
  · intro n response err duration deadline hn hbody hbudget hretry hop hs hd hdl hlate
    obtain ⟨j, rfl⟩ : ∃ j, n = j + 1 := ⟨n - 1, by omega⟩
    have hprev : j = 0 ∨ shouldContinueIssuingRequests j policy.MaximumNumberAttempts = true :=
      Or.inr (shouldContinueIssuingRequests_mono (Nat.le_succ j) hbudget)
    have hflag : (request.BinaryRequestBody.2 && !isSeekable request policy) = false := by
      rcases hbody with hb | ⟨hseek, hm⟩
      · simp [hb]
      · simp [isSeekable, hseek, hm]
    have hexceeded : deadlineExceeded ctx (now (j + 1)) duration = true := by
      simp [deadlineExceeded, hdl, hlate]
    rw [show fuel + (j + 1) = fuel + 1 + j by omega,
      retryLoop_run now ctx request operation policy j hprev hretry (fuel + 1), retryLoop,
      if_pos hbudget]
    simp only [attempt, bodySent_succ] at hop
    simp only [hop, hs, hd, hflag, hexceeded, Bool.false_eq_true, if_false, if_true,
      Option.map_some']
    refine ⟨_, rfl, ?_, ?_⟩
    · simp [invocations_append, invocations_runEvents, invocations_rewindEvents, invocations]
    · simp [sleeps_append, sleeps_runEvents, sleeps_rewindEvents, sleeps]
  · intro hdl h
    simp only [Option.map_eq_some'] at h
    obtain ⟨out, hout, herr⟩ := h
    exact retryLoop_deadlineExceeded _ _ _ _ _ _ _ _ _ _ _ _ out hout herr hdl

/-- A deadline 2 seconds away and a backoff of 5 seconds, on a request without a body and with
unlimited attempts. -/
theorem Retry_deadline_exceeded_by_backoff_witness :
    ∃ tr, Retry (0 + 1) (fun _ => 0) { Deadline := some (2 * Second) } ListEmailDomainsRequest
        timeoutOperation (alwaysRetryPolicy 0) =
        some ({ response := none, err := some .DeadlineExceededByBackoff }, tr) ∧
      invocations tr = 1 ∧
      sleeps tr = (List.range (1 - 1)).map
        (fun i => backoff ListEmailDomainsRequest timeoutOperation (alwaysRetryPolicy 0) (i + 1)) :=
  (Retry_deadline_exceeded_by_backoff (fun _ => 0) { Deadline := some (2 * Second) }
      ListEmailDomainsRequest timeoutOperation (alwaysRetryPolicy 0) 0).1 1 none
    (some SampleError.timeout) (5 * Second) (2 * Second) (by decide) (Or.inl rfl) rfl
    (by intro k hk h1; omega) rfl rfl rfl rfl (by decide)

/-- C6: for a policy with `MaximumNumberAttempts = m ≥ 1`, a request without a binary body and
a context without a deadline: when on every attempt `1 .. m` the operation returns,
`ShouldRetryOperation` answers true and `NextDuration` returns, `Retry` has invoked the
operation exactly `m` times and delivers exactly the response and the error of attempt `m`. -/
theorem Retry_exhausted_returns_last_attempt (now : Nat → Int) (ctx : Context)
    (request : OCIRetryableRequest) (operation : OCIOperation ρ ε) (policy : RetryPolicy ρ ε)
    (fuel m : Nat) (hm : 1 ≤ m) (hmax : policy.MaximumNumberAttempts = m)
    (hbody : request.BinaryRequestBody.2 = false) (hdeadline : ctx.Deadline = none)
    (hretry : ∀ k, 1 ≤ k → k ≤ m → ∃ response err duration,
      (attempt request operation policy k).result = .ok (response, err) ∧
      policy.ShouldRetryOperation (NewOCIOperationResponse response err k) = .ok true ∧
      policy.NextDuration (NewOCIOperationResponse response err k) = .ok duration) :
    ∃ response err tr, (attempt request operation policy m).result = .ok (response, err) ∧
      Retry (fuel + m) now ctx request operation policy =
        some ({ response := response, err := err.map .operation }, tr) ∧
      invocations tr = m := by
  have hall : ∀ k < m + 1, 1 ≤ k → proceeds now ctx request operation policy k = true := by
    intro k hk h1
    obtain ⟨response, err, duration, hop, hs, hd⟩ := hretry k h1 (by omega)
    exact proceeds_of_retry now ctx request operation policy k hbody hdeadline response err
      duration hop hs hd
  obtain ⟨response, err, duration, hop, -, -⟩ := hretry m hm (Nat.le_refl m)
  refine ⟨response, err, runEvents request operation policy m, hop, ?_,
    invocations_runEvents request operation policy m⟩
  rw [Retry_of_exhausted now ctx request operation policy fuel m hm hmax hall]
  obtain ⟨j, rfl⟩ : ∃ j, m = j + 1 := ⟨m - 1, by omega⟩
  simp [outcome, hop]

/-- C6, at `m = 3`, with an operation that always times out. -/
theorem Retry_exhausted_returns_last_attempt_witness :
    ∃ response err tr,
      (attempt ListEmailDomainsRequest timeoutOperation (alwaysRetryPolicy 3) 3).result =
        .ok (response, err) ∧
      Retry (0 + 3) (fun _ => 0) { Deadline := none } ListEmailDomainsRequest timeoutOperation
          (alwaysRetryPolicy 3) =
        some ({ response := response, err := err.map .operation }, tr) ∧
      invocations tr = 3 :=
  Retry_exhausted_returns_last_attempt (fun _ => 0) { Deadline := none } ListEmailDomainsRequest
    timeoutOperation (alwaysRetryPolicy 3) 0 3 (by decide) rfl rfl rfl
    (fun k _ _ => ⟨none, some SampleError.timeout, 5 * Second, rfl, rfl, rfl⟩)

/-- C7: under the default policy, for a request without a binary body and a context without a
deadline, an operation that fails with a network error on attempts 1 to 7 and returns a 2xx
response with a nil error on attempt 8 is invoked exactly 8 times, and `Retry` delivers the
response of attempt 8 with a nil error. -/
theorem Retry_default_policy_succeeds_on_eighth_attempt [OCIResponse ρ]
    (C : ErrorClassifier ε) (rand : Nat → ℚ) (now : Nat → Int) (ctx : Context)
    (request : OCIRetryableRequest) (operation : OCIOperation ρ ε) (fuel : Nat)
    (hbody : request.BinaryRequestBody.2 = false) (hdeadline : ctx.Deadline = none)
    (hfail : ∀ k, 1 ≤ k → k ≤ 7 → ∃ response err,
      (attempt request operation (DefaultRetryPolicy C rand) k).result =
        .ok (response, some err) ∧ C.IsNetworkError (some err) = true)
    (response : ρ) (raw : HTTPResponse)
    (hsuccess : (attempt request operation (DefaultRetryPolicy C rand) 8).result =
      .ok (some response, none))
    (hraw : OCIResponse.HTTPResponse response = some raw)
    (h2xx : 200 ≤ raw.StatusCode ∧ raw.StatusCode < 300) :
    ∃ tr, Retry (fuel + 8) now ctx request operation (DefaultRetryPolicy C rand) =
        some ({ response := some response, err := none }, tr) ∧
      invocations tr = 8 := by
  have hall : ∀ k < 8, 1 ≤ k →
      proceeds now ctx request operation (DefaultRetryPolicy C rand) k = true := by
    intro k hk h1
    obtain ⟨response1, err1, hop, hnet⟩ := hfail k h1 (by omega)
    exact proceeds_of_retry now ctx request operation _ k hbody hdeadline response1 (some err1)
      _ hop (defaultRetryPolicy_network C response1 err1 k hnet) rfl
  have hstop := Retry_of_stop now ctx request operation (DefaultRetryPolicy C rand) fuel 7
    rfl hall (some response) none hsuccess
    (defaultRetryPolicy_success C response raw 8 hraw h2xx)
  rw [show fuel + 8 = fuel + 1 + 7 by omega, hstop]
  exact ⟨_, rfl, by
    simp [invocations_append, invocations_runEvents, invocations_rewindEvents, invocations]⟩

/-- C7, with timeouts on attempts 1 to 7 and a 200 on attempt 8. -/
theorem Retry_default_policy_succeeds_on_eighth_attempt_witness :
    ∃ tr, Retry (0 + 8) (fun _ => 0) { Deadline := none } ListEmailDomainsRequest
        (fun k _ =>
          { result := if k ≤ 7 then .ok (none, some SampleError.timeout)
              else .ok (some (sampleResponse 200), none)
            offset := 0 })
        (DefaultRetryPolicy sampleClassifier (fun _ => 0)) =
        some ({ response := some (sampleResponse 200), err := none }, tr) ∧
      invocations tr = 8 :=
  Retry_default_policy_succeeds_on_eighth_attempt sampleClassifier (fun _ => 0) (fun _ => 0)
    { Deadline := none } ListEmailDomainsRequest _ 0 rfl rfl
    (fun k _ h7 => ⟨none, SampleError.timeout, by simp [attempt, h7], rfl⟩)
    (sampleResponse 200) { StatusCode := 200 } rfl rfl (by decide)

/-- C8: for every attempt context (any attempt number, attempt 1 included, and any response)
whose error is classified as a service error with status code 501 and code
"MethodNotImplemented", the default policy's `ShouldRetryOperation` answers false. The classes
of the classifier are disjoint, so the error is not also a network error. -/
theorem DefaultRetryPolicy_methodNotImplemented_never_retries [OCIResponse ρ]
    (C : ErrorClassifier ε) (hdisjoint : C.classesDisjoint) (rand : Nat → ℚ)
    (r : OCIOperationResponse ρ ε) (service : ServiceError)
    (hservice : C.IsServiceError r.Error = some service)
    (hstatus : service.GetHTTPStatusCode = 501)
    (hcode : service.GetCode = "MethodNotImplemented") :
    (DefaultRetryPolicy C rand).ShouldRetryOperation r = .ok false := by
  have herr : r.Error.isNone = false := by
    cases h : r.Error with
    | none => simp [h, ErrorClassifier.IsServiceError] at hservice
    | some e => rfl
  have hnetwork : C.IsNetworkError r.Error = false := by
    cases h : r.Error with
    | none => rfl
    | some e =>
      cases hn : C.networkError e with
      | false => simpa [ErrorClassifier.IsNetworkError] using hn
      | true =>
        have hnone := hdisjoint e hn
        simp [h, ErrorClassifier.IsServiceError, hnone] at hservice
  simp [DefaultRetryPolicy, NewRetryPolicy, defaultRetryPolicy, defaultRetryPolicyError, herr,
    hnetwork, hservice, hstatus, hcode, defaultRetryStatusCodeMap]

/-- C8, at a service failure (501, "MethodNotImplemented") on attempt 1, with a response of
status 501. -/
theorem DefaultRetryPolicy_methodNotImplemented_never_retries_witness :
    sampleClassifier.classesDisjoint ∧
      sampleClassifier.IsServiceError
          (NewOCIOperationResponse (some (sampleResponse 501))
            (some (SampleError.servicefailure 501 "MethodNotImplemented")) 1).Error =
        some { GetHTTPStatusCode := 501, GetCode := "MethodNotImplemented" } ∧
      (DefaultRetryPolicy sampleClassifier (fun _ => 0)).ShouldRetryOperation
          (NewOCIOperationResponse (some (sampleResponse 501))
            (some (SampleError.servicefailure 501 "MethodNotImplemented")) 1) = .ok false :=
  ⟨sampleClassifier_classesDisjoint, rfl,
    DefaultRetryPolicy_methodNotImplemented_never_retries sampleClassifier
      sampleClassifier_classesDisjoint (fun _ => 0)
      (NewOCIOperationResponse (some (sampleResponse 501))
        (some (SampleError.servicefailure 501 "MethodNotImplemented")) 1)
      { GetHTTPStatusCode := 501, GetCode := "MethodNotImplemented" } rfl rfl rfl⟩

/-- C9: for every attempt context (any attempt number, any response) whose error is classified
as a service error with (status code, code) equal to (409, "IncorrectState") or
(429, "TooManyRequests"), the default policy's `ShouldRetryOperation` answers true. -/
theorem DefaultRetryPolicy_retries_incorrectState_tooManyRequests [OCIResponse ρ]
    (C : ErrorClassifier ε) (rand : Nat → ℚ) (r : OCIOperationResponse ρ ε)
    (service : ServiceError) (hservice : C.IsServiceError r.Error = some service)
    (hpair : (service.GetHTTPStatusCode = 409 ∧ service.GetCode = "IncorrectState") ∨
      (service.GetHTTPStatusCode = 429 ∧ service.GetCode = "TooManyRequests")) :
    (DefaultRetryPolicy C rand).ShouldRetryOperation r = .ok true := by
  have herr : r.Error.isNone = false := by
    cases h : r.Error with
    | none => simp [h, ErrorClassifier.IsServiceError] at hservice
    | some e => rfl
  cases hnetwork : C.IsNetworkError r.Error with
  | true =>
    simp [DefaultRetryPolicy, NewRetryPolicy, defaultRetryPolicy, defaultRetryPolicyError, herr,
      hnetwork]
  | false =>
    rcases hpair with ⟨hstatus, hcode⟩ | ⟨hstatus, hcode⟩ <;>
      simp [DefaultRetryPolicy, NewRetryPolicy, defaultRetryPolicy, defaultRetryPolicyError,
        herr, hnetwork, hservice, hstatus, hcode, defaultRetryStatusCodeMap]

/-- C9, at a service failure (429, "TooManyRequests") on attempt 3. -/
theorem DefaultRetryPolicy_retries_incorrectState_tooManyRequests_witness :
    (DefaultRetryPolicy sampleClassifier (fun _ => 0)).ShouldRetryOperation
        (NewOCIOperationResponse (some (sampleResponse 429))
          (some (SampleError.servicefailure 429 "TooManyRequests")) 3) = .ok true :=
  DefaultRetryPolicy_retries_incorrectState_tooManyRequests sampleClassifier (fun _ => 0)
    (NewOCIOperationResponse (some (sampleResponse 429))
      (some (SampleError.servicefailure 429 "TooManyRequests")) 3)
    { GetHTTPStatusCode := 429, GetCode := "TooManyRequests" } rfl (Or.inr ⟨rfl, rfl⟩)

/-- C10 does not hold of the code: past the table, the default policy tests the status code of
the response, not that of the service error. A service error (503, "ServiceUnavailable"), which
is not a network error and not in the table, is not retried when the response carries 200; a
service error (404, "NotFound") is retried when the response carries 503. -/
theorem DefaultRetryPolicy_other_service_error_reads_response_status :
    sampleClassifier.IsNetworkError (some (SampleError.servicefailure 503 "ServiceUnavailable")) =
        false ∧
      sampleClassifier.IsServiceError (some (SampleError.servicefailure 503 "ServiceUnavailable")) =
        some { GetHTTPStatusCode := 503, GetCode := "ServiceUnavailable" } ∧
      (DefaultRetryPolicy sampleClassifier (fun _ => 0)).ShouldRetryOperation
        (NewOCIOperationResponse (some (sampleResponse 200))
          (some (SampleError.servicefailure 503 "ServiceUnavailable")) 1) = .ok false ∧
      (DefaultRetryPolicy sampleClassifier (fun _ => 0)).ShouldRetryOperation
        (NewOCIOperationResponse (some (sampleResponse 503))
          (some (SampleError.servicefailure 404 "NotFound")) 1) = .ok true := by
  refine ⟨rfl, rfl, ?_, ?_⟩ <;>
    simp [DefaultRetryPolicy, NewRetryPolicy, defaultRetryPolicy, defaultRetryPolicyError,
      NewOCIOperationResponse, ErrorClassifier.IsNetworkError, ErrorClassifier.IsServiceError,
      sampleClassifier, defaultRetryStatusCodeMap, StatusCode, OCIResponse.HTTPResponse,
      sampleResponse]

/-- C11: for every attempt context whose error is absent and whose response carries a status
code `s` with `200 ≤ s < 300`, the default policy's `ShouldRetryOperation` answers false. -/
theorem DefaultRetryPolicy_success_never_retries [OCIResponse ρ]
    (C : ErrorClassifier ε) (rand : Nat → ℚ) (r : OCIOperationResponse ρ ε)
    (response : ρ) (raw : HTTPResponse) (herr : r.Error = none)
    (hresponse : r.Response = some response)
    (hraw : OCIResponse.HTTPResponse response = some raw)
    (h2xx : 200 ≤ raw.StatusCode ∧ raw.StatusCode < 300) :
    (DefaultRetryPolicy C rand).ShouldRetryOperation r = .ok false := by
  have h1 : 199 < raw.StatusCode := by omega
  simp [DefaultRetryPolicy, NewRetryPolicy, defaultRetryPolicy, herr, hresponse, StatusCode,
    hraw, h1, h2xx.2]

/-- C11, at a nil error with a 204 response on attempt 5. -/
theorem DefaultRetryPolicy_success_never_retries_witness :
    (DefaultRetryPolicy sampleClassifier (fun _ => 0)).ShouldRetryOperation
        (NewOCIOperationResponse (some (sampleResponse 204)) none 5) = .ok false :=
  DefaultRetryPolicy_success_never_retries sampleClassifier (fun _ => 0)
    (NewOCIOperationResponse (some (sampleResponse 204)) none 5) (sampleResponse 204)
    { StatusCode := 204 } rfl rfl rfl (by decide)

/-- C12: for every attempt context whose error is present and is classified neither as a
network error nor as a service error, the default policy's `ShouldRetryOperation` answers
false, whatever the response and the attempt number. -/
theorem DefaultRetryPolicy_unclassified_error_never_retries [OCIResponse ρ]
    (C : ErrorClassifier ε) (rand : Nat → ℚ) (r : OCIOperationResponse ρ ε) (err : ε)
    (herr : r.Error = some err) (hnetwork : C.IsNetworkError (some err) = false)
    (hservice : C.IsServiceError (some err) = none) :
    (DefaultRetryPolicy C rand).ShouldRetryOperation r = .ok false := by
  simp [DefaultRetryPolicy, NewRetryPolicy, defaultRetryPolicy, defaultRetryPolicyError, herr,
    hnetwork, hservice]

/-- C12, at an unclassified error with a nil response on attempt 1. -/
theorem DefaultRetryPolicy_unclassified_error_never_retries_witness :
    (DefaultRetryPolicy sampleClassifier (fun _ => 0)).ShouldRetryOperation
        (NewOCIOperationResponse (none : Option ListEmailDomainsResponse)
          (some (SampleError.other "malformed request")) 1) = .ok false :=
  DefaultRetryPolicy_unclassified_error_never_retries sampleClassifier (fun _ => 0)
    (NewOCIOperationResponse (none : Option ListEmailDomainsResponse)
      (some (SampleError.other "malformed request")) 1)
    (SampleError.other "malformed request") rfl rfl rfl

/-- C15: `NoRetryPolicy()` has `MaximumNumberAttempts = 1`, its `ShouldRetryOperation` answers
false on every attempt context, and its `NextDuration` is the zero duration on every attempt
context. -/
theorem NoRetryPolicy_spec :
    (NoRetryPolicy : RetryPolicy ρ ε).MaximumNumberAttempts = 1 ∧
      (∀ r : OCIOperationResponse ρ ε,
        (NoRetryPolicy : RetryPolicy ρ ε).ShouldRetryOperation r = .ok false) ∧
      (∀ r : OCIOperationResponse ρ ε,
        (NoRetryPolicy : RetryPolicy ρ ε).NextDuration r = .ok 0) := by
  refine ⟨rfl, fun r => rfl, fun r => ?_⟩
  simp [NoRetryPolicy, NewRetryPolicy]

/-- C16: `shouldContinueIssuingRequests current maximum` is true exactly when `maximum = 0` or
`current ≤ maximum`; so with `maximum = UnlimitedNumAttemptsValue` it is true for every
`current`, and with `maximum ≥ 1` it is false for every `current > maximum`. -/
theorem shouldContinueIssuingRequests_spec :
    (∀ current maximum : Nat,
      shouldContinueIssuingRequests current maximum = true ↔
        (maximum = 0 ∨ current ≤ maximum)) ∧
      (∀ current : Nat,
        shouldContinueIssuingRequests current UnlimitedNumAttemptsValue = true) ∧
      (∀ current maximum : Nat, 1 ≤ maximum → maximum < current →
        shouldContinueIssuingRequests current maximum = false) := by
  refine ⟨fun current maximum => ?_, fun current => ?_, fun current maximum h1 h2 => ?_⟩
  · simp [shouldContinueIssuingRequests, UnlimitedNumAttemptsValue]
  · simp [shouldContinueIssuingRequests]
  · simp only [shouldContinueIssuingRequests, UnlimitedNumAttemptsValue, Bool.or_eq_false_iff,
      beq_eq_false_iff_ne, decide_eq_false_iff_not]
    omega

/-- C16, at unlimited attempts on attempt 1000, and at a budget of 3 on attempt 4. -/
theorem shouldContinueIssuingRequests_spec_witness :
    shouldContinueIssuingRequests 1000 UnlimitedNumAttemptsValue = true ∧
      shouldContinueIssuingRequests 4 3 = false :=
  ⟨shouldContinueIssuingRequests_spec.2.1 1000,
    shouldContinueIssuingRequests_spec.2.2 4 3 (by decide) (by decide)⟩

/-- C13 fails as stated: the jitter `1 - 2⁻⁵³`, the largest `float64` below 1, makes the
`float64` sum `1 + jitter` of attempt 1 equal to 2, so `NextDuration` is 2 seconds, which is
not below `min(2^0, 30) + 1` seconds. -/
theorem DefaultRetryPolicy_NextDuration_reaches_next_second :
    (0 : ℚ) ≤ 1 - 1 / 2 ^ 53 ∧ (1 - 1 / 2 ^ 53 : ℚ) < 1 ∧
      float64 (1 - 1 / 2 ^ 53) = 1 - 1 / 2 ^ 53 ∧
      (DefaultRetryPolicy sampleClassifier (fun _ => 1 - 1 / 2 ^ 53)).NextDuration
        (NewOCIOperationResponse (none : Option ListEmailDomainsResponse)
          (some SampleError.timeout) 1) = .ok (2 * Second) ∧
      ¬ (2 * Second < (((min (2 ^ (1 - 1)) 30 : ℕ) : ℤ) + 1) * Second) := by
  refine ⟨by norm_num, by norm_num, float64_largest_below_one, ?_, by decide⟩
  have h : sleepTime 1 < maxSleepBetween := by rw [sleepTime_one, maxSleepBetween]; norm_num
  have hsum : float64 (sleepTime 1 + (1 - 1 / 2 ^ 53)) = ((2 : ℤ) : ℚ) := by
    rw [sleepTime_one, float64_one_add_largest_below_one]
    norm_num
  simp only [DefaultRetryPolicy, NewRetryPolicy, NewOCIOperationResponse,
    exponentialBackoffWithJitter, if_pos h, hsum, truncate_intCast 2 (by decide)]

/-- C13, amended: for every attempt number `N ≥ 1` and every jitter in `[0, 1)`, the duration
`d` that the default policy's `NextDuration` returns satisfies
`min(2^(N-1), 30) s ≤ d ≤ (min(2^(N-1), 30) + 1) s`; so `d` is at most 31 seconds. -/
theorem DefaultRetryPolicy_NextDuration_bounds [OCIResponse ρ] (C : ErrorClassifier ε)
    (rand : Nat → ℚ) (r : OCIOperationResponse ρ ε) (hN : 1 ≤ r.AttemptNumber)
    (h0 : 0 ≤ rand r.AttemptNumber) (h1 : rand r.AttemptNumber < 1) :
    ∃ d, (DefaultRetryPolicy C rand).NextDuration r = .ok d ∧
      ((min (2 ^ (r.AttemptNumber - 1)) 30 : ℕ) : ℤ) * Second ≤ d ∧
      d ≤ (((min (2 ^ (r.AttemptNumber - 1)) 30 : ℕ) : ℤ) + 1) * Second ∧
      d ≤ 31 * Second := by
  obtain ⟨hlo, hhi⟩ := exponentialBackoffWithJitter_between (rand r.AttemptNumber) r hN h0 h1
  refine ⟨_, rfl, hlo, hhi, le_trans hhi ?_⟩
  have hmin : ((min (2 ^ (r.AttemptNumber - 1)) 30 : ℕ) : ℤ) + 1 ≤ 31 := by
    have : min (2 ^ (r.AttemptNumber - 1)) 30 ≤ 30 := Nat.min_le_right _ _
    omega
  exact Int.mul_le_mul_of_nonneg_right hmin (by decide)

/-- C13 amended, at attempt 3 with the jitter 1/4. -/
theorem DefaultRetryPolicy_NextDuration_bounds_witness :
    ∃ d, (DefaultRetryPolicy sampleClassifier (fun _ => 1 / 4)).NextDuration
        (NewOCIOperationResponse (none : Option ListEmailDomainsResponse)
          (some SampleError.timeout) 3) = .ok d ∧
      ((min (2 ^ (3 - 1)) 30 : ℕ) : ℤ) * Second ≤ d ∧
      d ≤ (((min (2 ^ (3 - 1)) 30 : ℕ) : ℤ) + 1) * Second ∧
      d ≤ 31 * Second :=
  DefaultRetryPolicy_NextDuration_bounds sampleClassifier (fun _ => 1 / 4)
    (NewOCIOperationResponse (none : Option ListEmailDomainsResponse)
      (some SampleError.timeout) 3) (by decide) (by norm_num) (by norm_num)

/-- C14 does not hold of the code: the sum is converted to `time.Duration`, which drops the
fraction, before it is multiplied by `time.Second`. With the jitter 1/2 the `NextDuration` of
attempt 1 is 1 second, not 1.5 seconds; and whatever the jitter and the attempt, it is a whole
number of seconds. -/
theorem DefaultRetryPolicy_NextDuration_drops_jitter :
    float64 (1 / 2) = 1 / 2 ∧
      (DefaultRetryPolicy sampleClassifier (fun _ => 1 / 2)).NextDuration
        (NewOCIOperationResponse (none : Option ListEmailDomainsResponse)
          (some SampleError.timeout) 1) = .ok (1 * Second) ∧
      ((1 * Second : ℤ) : ℚ) ≠ ((min (2 ^ (1 - 1)) 30 : ℕ) + 1 / 2) * (Second : ℚ) ∧
      ∀ (jitter : ℚ) (r : OCIOperationResponse ListEmailDomainsResponse SampleError),
        Second ∣ exponentialBackoffWithJitter jitter r := by
  refine ⟨float64_of_exact (-1) (2 ^ 52) _ (by norm_num) (by norm_num) (by norm_num), ?_,
    by norm_num [Second], fun jitter r => ?_⟩
  · have h : sleepTime 1 < maxSleepBetween := by rw [sleepTime_one, maxSleepBetween]; norm_num
    have hsum : float64 (sleepTime 1 + 1 / 2) = 3 / 2 := by
      rw [sleepTime_one, show (1 : ℚ) + 1 / 2 = 3 / 2 by norm_num]
      exact float64_of_exact 0 (3 * 2 ^ 51) _ (by norm_num) (by norm_num) (by norm_num)
    have htrunc : truncate (3 / 2) = 1 := by
      rw [truncate_of_nonneg (by norm_num), Int.floor_eq_iff]
      constructor <;> norm_num
    simp only [DefaultRetryPolicy, NewRetryPolicy, NewOCIOperationResponse,
      exponentialBackoffWithJitter, if_pos h, hsum, htrunc]
  · unfold exponentialBackoffWithJitter
    split <;> exact Dvd.intro_left _ rfl

/-- C19: for every behaviour of the random source, `RetryToken()` is a string of exactly 32
characters, each of which is one of `alphanumericChars`; these are 62 pairwise distinct
characters, each in a-z, 0-9 or A-Z. -/
theorem RetryToken_spec :
    (∀ source : Nat → Nat, (RetryToken source).length = 32 ∧
      ∀ c ∈ (RetryToken source).toList, c ∈ alphanumericChars) ∧
      alphanumericChars.length = 62 ∧ alphanumericChars.Nodup ∧
      ∀ c ∈ alphanumericChars,
        ('a' ≤ c ∧ c ≤ 'z') ∨ ('0' ≤ c ∧ c ≤ '9') ∨ ('A' ≤ c ∧ c ≤ 'Z') := by
  refine ⟨fun source => ⟨?_, ?_⟩, by decide, by decide, by decide⟩
  · simp [RetryToken, String.length, generatedRetryTokenLength]
  · intro c hc
    simp only [RetryToken, String.toList, List.mem_map] at hc
    obtain ⟨i, -, rfl⟩ := hc
    exact List.get_mem _ _ _

/-- C20: let attempts `1 .. n-1` each hand over and attempt `n` be within the budget. When on
attempt `n` the operation faults, or `ShouldRetryOperation` faults, or `NextDuration` (reached
after a true answer) faults, with the value `p`, then `Retry` still delivers a result: a nil
response with the error made from `p`; and the operation has been invoked `n` times, so no
further attempt is issued. -/
theorem Retry_recovers_fault (now : Nat → Int) (ctx : Context)
    (request : OCIRetryableRequest) (operation : OCIOperation ρ ε) (policy : RetryPolicy ρ ε)
    (fuel n : Nat) (p : Panic) (hn : 1 ≤ n)
    (hbudget : shouldContinueIssuingRequests n policy.MaximumNumberAttempts = true)
    (hprev : ∀ k < n, 1 ≤ k → proceeds now ctx request operation policy k = true)
    (hfault : (attempt request operation policy n).result = .error p ∨
      ∃ response err, (attempt request operation policy n).result = .ok (response, err) ∧
        (policy.ShouldRetryOperation (NewOCIOperationResponse response err n) = .error p ∨
          (policy.ShouldRetryOperation (NewOCIOperationResponse response err n) = .ok true ∧
            (request.BinaryRequestBody.2 && !isSeekable request policy) = false ∧
            policy.NextDuration (NewOCIOperationResponse response err n) = .error p))) :
    ∃ tr, Retry (fuel + n) now ctx request operation policy =
        some ({ response := none, err := some (.panicked p) }, tr) ∧
      invocations tr = n := by
  obtain ⟨j, rfl⟩ : ∃ j, n = j + 1 := ⟨n - 1, by omega⟩
  have hbefore : j = 0 ∨ shouldContinueIssuingRequests j policy.MaximumNumberAttempts = true :=
    Or.inr (shouldContinueIssuingRequests_mono (Nat.le_succ j) hbudget)
  rw [show fuel + (j + 1) = fuel + 1 + j by omega,
    retryLoop_run now ctx request operation policy j hbefore hprev (fuel + 1), retryLoop,
    if_pos hbudget]
  simp only [attempt, bodySent_succ] at hfault
  rcases hfault with hop | ⟨response, err, hop, hs | ⟨hs, hflag, hd⟩⟩
  · simp only [hop, Option.map_some']
    exact ⟨_, rfl, by
      simp [invocations_append, invocations_runEvents, invocations_rewindEvents, invocations]⟩
  · simp only [hop, hs, Option.map_some']
    exact ⟨_, rfl, by
      simp [invocations_append, invocations_runEvents, invocations_rewindEvents, invocations]⟩
  · simp only [hop, hs, hflag, hd, Bool.false_eq_true, if_false, Option.map_some']
    exact ⟨_, rfl, by
      simp [invocations_append, invocations_runEvents, invocations_rewindEvents, invocations]⟩

/-- C20, at an operation that faults on attempt 2. -/
theorem Retry_recovers_fault_witness :
    ∃ tr, Retry (0 + 2) (fun _ => 0) { Deadline := none } ListEmailDomainsRequest
        faultingOperation (alwaysRetryPolicy 0) =
        some ({ response := none, err := some (.panicked "index out of range") }, tr) ∧
      invocations tr = 2 :=
  Retry_recovers_fault (fun _ => 0) { Deadline := none } ListEmailDomainsRequest
    faultingOperation (alwaysRetryPolicy 0) 0 2 "index out of range" (by decide) rfl
    (by
      intro k hk h1
      obtain rfl : k = 1 := by omega
      rfl)
    (Or.inl rfl)

/-- C17: in a run of `Retry`, for every `i` the invocation numbered `i + 1` is made by attempt
`i + 1`, and the context numbered `i + 1` that `ShouldRetryOperation` receives, and the one
that `NextDuration` receives when it is evaluated, has `AttemptNumber = i + 1` and carries the
response and the error which that invocation returned: the attempt number starts at 1, grows
by one per turn of the loop and never starts over. -/
theorem Retry_attempt_numbers (now : Nat → Int) (ctx : Context)
    (request : OCIRetryableRequest) (operation : OCIOperation ρ ε) (policy : RetryPolicy ρ ε)
    (fuel : Nat) (out : retrierResult ρ ε × List (Event ρ ε))
    (hout : Retry fuel now ctx request operation policy = some out) :
    (∀ (i a : Nat) (body : Option OCIReadSeekCloser),
      (operationCalls out.2)[i]? = some (a, body) → a = i + 1) ∧
    (∀ (i : Nat) (r : OCIOperationResponse ρ ε),
      ((shouldRetryArguments out.2)[i]? = some r ∨
        (nextDurationArguments out.2)[i]? = some r) →
      r.AttemptNumber = i + 1 ∧
        ∃ body, (operationCalls out.2)[i]? = some (i + 1, body) ∧
          (operation (i + 1) body).result = .ok (r.Response, r.Error)) := by
  constructor
  · intro i a body hcall
    have := retryLoop_operationCalls _ _ _ _ _ _ _ _ _ _ _ _ out hout i a body hcall
    omega
  · intro i r hr
    obtain ⟨hnum, body, hcall, hres⟩ :=
      retryLoop_arguments _ _ _ _ _ _ _ _ _ _ _ _ out hout i r hr
    rw [Nat.add_comm 1 i] at hnum hcall hres
    exact ⟨hnum, body, hcall, hres⟩

/-- C17, at the run of three attempts that always time out. -/
theorem Retry_attempt_numbers_witness :
    ∃ out, Retry 3 (fun _ => 0) { Deadline := none } ListEmailDomainsRequest timeoutOperation
        (alwaysRetryPolicy 3) = some out ∧
      (shouldRetryArguments out.2).map (fun r => r.AttemptNumber) = [1, 2, 3] ∧
      (∀ (i a : Nat) (body : Option OCIReadSeekCloser),
        (operationCalls out.2)[i]? = some (a, body) → a = i + 1) ∧
      (∀ (i : Nat) (r : OCIOperationResponse ListEmailDomainsResponse SampleError),
        ((shouldRetryArguments out.2)[i]? = some r ∨
          (nextDurationArguments out.2)[i]? = some r) →
        r.AttemptNumber = i + 1 ∧
          ∃ body, (operationCalls out.2)[i]? = some (i + 1, body) ∧
            (timeoutOperation (i + 1) body).result = .ok (r.Response, r.Error)) :=
  ⟨_, rfl, rfl,
    Retry_attempt_numbers (fun _ => 0) { Deadline := none } ListEmailDomainsRequest
      timeoutOperation (alwaysRetryPolicy 3) 3 _ rfl⟩

/-- C18: for a request whose body is seekable and at a read offset `k ≥ 0` when `Retry` is
entered, and a policy with `MaximumNumberAttempts ≠ 1`. Every attempt `N ≥ 1` that the run
reaches (attempts `1 .. N-1` each hand over and `N` is within the budget) invokes the
operation, as the invocation numbered `N` of the run, with the body as it was on entry, at
offset `k`, whatever offsets the earlier invocations left it at; this holds of the turns of the
loop whether or not the run ever delivers. No invocation in any number of turns is handed
another body, so each reads the bytes that attempt 1 reads. The steps of a run that delivers are
the steps of its turns, so all its invocations are handed that body. -/
theorem Retry_rewinds_seekable_body (now : Nat → Int) (ctx : Context)
    (request : OCIRetryableRequest) (operation : OCIOperation ρ ε) (policy : RetryPolicy ρ ε)
    (body : OCIReadSeekCloser) (hbody : request.BinaryRequestBody.1 = some body)
    (hseekable : body.isSeekable = true) (hoffset : 0 ≤ body.currentOffset)
    (hmax : policy.MaximumNumberAttempts ≠ 1) :
    (∀ N fuel : Nat, 1 ≤ N →
      shouldContinueIssuingRequests N policy.MaximumNumberAttempts = true →
      (∀ k < N, 1 ≤ k → proceeds now ctx request operation policy k = true) →
      (operationCalls (RetrySteps (fuel + N) now ctx request operation policy))[N - 1]? =
        some (N, some body)) ∧
    (∀ fuel : Nat, ∀ call ∈ operationCalls (RetrySteps fuel now ctx request operation policy),
      call.2 = some body) ∧
    (∀ (fuel : Nat) (out : retrierResult ρ ε × List (Event ρ ε)),
      Retry fuel now ctx request operation policy = some out →
      out.2 = RetrySteps fuel now ctx request operation policy ∧
        ∀ call ∈ operationCalls out.2, call.2 = some body) := by
  obtain ⟨hseek, hcur⟩ :=
    isSeekable_curPos_of_seekable request policy body hbody hseekable hoffset hmax
  have heta : some (OCIReadSeekCloser.mk body.stream true body.currentOffset) = some body := by
    rw [← hseekable]
  have hall : ∀ fuel : Nat,
      ∀ call ∈ operationCalls (RetrySteps fuel now ctx request operation policy),
        call.2 = some body := by
    intro fuel call hcall
    rw [RetrySteps, hseek, hcur, hbody, ← heta] at hcall
    rw [← heta]
    exact retryLoopSteps_bodies _ _ _ _ _ _ hoffset _ _ _ _ call hcall
  refine ⟨?_, hall, ?_⟩
  · intro N fuel hN hbudget hretry
    obtain ⟨j, rfl⟩ : ∃ j, N = j + 1 := ⟨N - 1, by omega⟩
    rw [Nat.add_sub_cancel,
      RetrySteps_invocation now ctx request operation policy j fuel hbudget hretry,
      bodySent_seekable request operation policy body hbody hseekable hoffset hmax]
  · intro fuel out hout
    have hsteps := RetrySteps_of_Retry now ctx request operation policy fuel out hout
    refine ⟨hsteps, ?_⟩
    rw [hsteps]
    exact hall fuel

/-- C18, at a seekable upload of three bytes that every attempt reads to its end (offset 3),
under a policy that always asks for a retry. With three attempts the run delivers and its three
invocations are handed the body at offset 0. With unlimited attempts the run never delivers;
the first three turns make three invocations, each with the body at offset 0. -/
theorem Retry_rewinds_seekable_body_witness :
    (∃ out, Retry 3 (fun _ => 0) { Deadline := none } (sampleUpload true) timeoutOperation
        (alwaysRetryPolicy 3) = some out ∧
      operationCalls out.2 =
        [(1, some { stream := [7, 8, 9], isSeekable := true, currentOffset := 0 }),
         (2, some { stream := [7, 8, 9], isSeekable := true, currentOffset := 0 }),
         (3, some { stream := [7, 8, 9], isSeekable := true, currentOffset := 0 })]) ∧
    Retry 3 (fun _ => 0) { Deadline := none } (sampleUpload true) timeoutOperation
        (alwaysRetryPolicy 0) = none ∧
    operationCalls (RetrySteps 3 (fun _ => 0) { Deadline := none } (sampleUpload true)
        timeoutOperation (alwaysRetryPolicy 0)) =
      [(1, some { stream := [7, 8, 9], isSeekable := true, currentOffset := 0 }),
       (2, some { stream := [7, 8, 9], isSeekable := true, currentOffset := 0 }),
       (3, some { stream := [7, 8, 9], isSeekable := true, currentOffset := 0 })] ∧
    (operationCalls (RetrySteps (0 + 3) (fun _ => 0) { Deadline := none } (sampleUpload true)
        timeoutOperation (alwaysRetryPolicy 0)))[3 - 1]? =
      some (3, some { stream := [7, 8, 9], isSeekable := true, currentOffset := 0 }) :=
  ⟨⟨_, rfl, rfl⟩, rfl, rfl,
    (Retry_rewinds_seekable_body (fun _ => 0) { Deadline := none } (sampleUpload true)
      timeoutOperation (alwaysRetryPolicy 0)
      { stream := [7, 8, 9], isSeekable := true, currentOffset := 0 } rfl rfl (by decide)
      (by decide)).1 3 0 (by decide) rfl
      (fun k hk h1 => by
        obtain rfl | rfl : k = 1 ∨ k = 2 := by omega
        · rfl
        · rfl)⟩

/-- C23: for a policy with `MaximumNumberAttempts = m ≥ 1`, a request without a binary body
and a context without a deadline: when on every attempt `1 .. m` the operation returns,
`ShouldRetryOperation` answers true and `NextDuration` returns, `Retry` evaluates
`NextDuration` `m` times and suspends exactly `m` times, once after every attempt, the last
one included, each time for the `NextDuration` of that attempt; the last step of the run is
the suspension after attempt `m`. -/
theorem Retry_suspends_after_every_attempt (now : Nat → Int) (ctx : Context)
    (request : OCIRetryableRequest) (operation : OCIOperation ρ ε) (policy : RetryPolicy ρ ε)
    (fuel m : Nat) (hm : 1 ≤ m) (hmax : policy.MaximumNumberAttempts = m)
    (hbody : request.BinaryRequestBody.2 = false) (hdeadline : ctx.Deadline = none)
    (hretry : ∀ k, 1 ≤ k → k ≤ m → ∃ response err duration,
      (attempt request operation policy k).result = .ok (response, err) ∧
      policy.ShouldRetryOperation (NewOCIOperationResponse response err k) = .ok true ∧
      policy.NextDuration (NewOCIOperationResponse response err k) = .ok duration) :
    ∃ result tr, Retry (fuel + m) now ctx request operation policy = some (result, tr) ∧
      invocations tr = m ∧ nextDurations tr = m ∧ (sleeps tr).length = m ∧
      sleeps tr = (List.range m).map (fun i => backoff request operation policy (i + 1)) ∧
      (∀ k, 1 ≤ k → k ≤ m →
        policy.NextDuration (operationResponse request operation policy k) =
          .ok (backoff request operation policy k)) ∧
      tr.getLast? = some (.after (backoff request operation policy m)) := by
  have hall : ∀ k < m + 1, 1 ≤ k → proceeds now ctx request operation policy k = true := by
    intro k hk h1
    obtain ⟨response, err, duration, hop, hs, hd⟩ := hretry k h1 (by omega)
    exact proceeds_of_retry now ctx request operation policy k hbody hdeadline response err
      duration hop hs hd
  refine ⟨_, _, Retry_of_exhausted now ctx request operation policy fuel m hm hmax hall,
    invocations_runEvents _ _ _ m, nextDurations_runEvents _ _ _ m,
    length_sleeps_runEvents _ _ _ m, sleeps_runEvents _ _ _ m, ?_, ?_⟩
  · intro k h1 hk
    obtain ⟨response, err, duration, hop, -, hd⟩ := hretry k h1 hk
    obtain ⟨j, rfl⟩ : ∃ j, k = j + 1 := ⟨k - 1, by omega⟩
    simp [backoff, operationResponse, outcome, hop, hd]
  · obtain ⟨j, rfl⟩ : ∃ j, m = j + 1 := ⟨m - 1, by omega⟩
    simp [runEvents, attemptEvents, List.getLast?_append]

/-- C23, at `m = 3`, with an operation that always times out and a backoff of 5 seconds. -/
theorem Retry_suspends_after_every_attempt_witness :
    ∃ result tr, Retry (0 + 3) (fun _ => 0) { Deadline := none } ListEmailDomainsRequest
        timeoutOperation (alwaysRetryPolicy 3) = some (result, tr) ∧
      invocations tr = 3 ∧ nextDurations tr = 3 ∧ (sleeps tr).length = 3 ∧
      sleeps tr = (List.range 3).map
        (fun i => backoff ListEmailDomainsRequest timeoutOperation (alwaysRetryPolicy 3) (i + 1)) ∧
      (∀ k, 1 ≤ k → k ≤ 3 →
        (alwaysRetryPolicy 3).NextDuration
            (operationResponse ListEmailDomainsRequest timeoutOperation (alwaysRetryPolicy 3) k) =
          .ok (backoff ListEmailDomainsRequest timeoutOperation (alwaysRetryPolicy 3) k)) ∧
      tr.getLast? = some (.after
        (backoff ListEmailDomainsRequest timeoutOperation (alwaysRetryPolicy 3) 3)) :=
  Retry_suspends_after_every_attempt (fun _ => 0) { Deadline := none } ListEmailDomainsRequest
    timeoutOperation (alwaysRetryPolicy 3) 0 3 (by decide) rfl rfl rfl
    (fun k _ _ => ⟨none, some SampleError.timeout, 5 * Second, rfl, rfl, rfl⟩)

/-- C22 fails as stated: the `float64` sum of attempt 1 is 1 for the jitter 0 and 2 for the
jitter `1 - 2⁻⁵³`, the largest `float64` below 1, so the two durations are 1 second and
2 seconds: they differ, and the second is not `min(2^0, 30)` seconds. -/
theorem DefaultRetryPolicy_NextDuration_depends_on_extreme_draw :
    ((0 : ℚ) ≤ 0 ∧ (0 : ℚ) < 1) ∧
      ((0 : ℚ) ≤ 1 - 1 / 2 ^ 53 ∧ (1 - 1 / 2 ^ 53 : ℚ) < 1 ∧
        float64 (1 - 1 / 2 ^ 53) = 1 - 1 / 2 ^ 53) ∧
      (DefaultRetryPolicy sampleClassifier (fun _ => 0)).NextDuration
        (NewOCIOperationResponse (none : Option ListEmailDomainsResponse)
          (some SampleError.timeout) 1) = .ok (1 * Second) ∧
      (DefaultRetryPolicy sampleClassifier (fun _ => 1 - 1 / 2 ^ 53)).NextDuration
        (NewOCIOperationResponse (none : Option ListEmailDomainsResponse)
          (some SampleError.timeout) 1) = .ok (2 * Second) ∧
      (1 * Second : Duration) ≠ 2 * Second ∧
      (2 * Second : Duration) ≠ ((min (2 ^ (1 - 1)) 30 : ℕ) : ℤ) * Second := by
  refine ⟨by norm_num, ⟨by norm_num, by norm_num, float64_largest_below_one⟩, ?_, ?_,
    by decide, by decide⟩
  · have h := exponentialBackoffWithJitter_eq 0
      (NewOCIOperationResponse (none : Option ListEmailDomainsResponse)
        (some SampleError.timeout) 1) (Nat.le_refl 1) (le_refl 0) (by norm_num)
    simp only [DefaultRetryPolicy, NewRetryPolicy]
    rw [h]
    rfl
  · simp only [DefaultRetryPolicy, NewRetryPolicy]
    rw [exponentialBackoffWithJitter_largest_jitter _ rfl]

/-- C22, amended: for every attempt number `N ≥ 1` and any two jitter values in
`[0, 1 - 2⁻⁴⁹)`, the durations that the default policy's `NextDuration` returns are equal, and
both are exactly `min(2^(N-1), 30)` whole seconds; for a jitter anywhere in `[0, 1)` the
duration is `min(2^(N-1), 30)` or `min(2^(N-1), 30) + 1` whole seconds. -/
theorem DefaultRetryPolicy_NextDuration_independent_of_draw [OCIResponse ρ]
    (C : ErrorClassifier ε) (rand1 rand2 : Nat → ℚ) (r : OCIOperationResponse ρ ε)
    (hN : 1 ≤ r.AttemptNumber) :
    ((0 ≤ rand1 r.AttemptNumber ∧ rand1 r.AttemptNumber < 1 - 1 / 2 ^ 49) →
      (0 ≤ rand2 r.AttemptNumber ∧ rand2 r.AttemptNumber < 1 - 1 / 2 ^ 49) →
      (DefaultRetryPolicy C rand1).NextDuration r = (DefaultRetryPolicy C rand2).NextDuration r ∧
        (DefaultRetryPolicy C rand1).NextDuration r =
          .ok (((min (2 ^ (r.AttemptNumber - 1)) 30 : ℕ) : ℤ) * Second)) ∧
    ((0 ≤ rand1 r.AttemptNumber ∧ rand1 r.AttemptNumber < 1) →
      (DefaultRetryPolicy C rand1).NextDuration r =
          .ok (((min (2 ^ (r.AttemptNumber - 1)) 30 : ℕ) : ℤ) * Second) ∨
        (DefaultRetryPolicy C rand1).NextDuration r =
          .ok ((((min (2 ^ (r.AttemptNumber - 1)) 30 : ℕ) : ℤ) + 1) * Second)) := by
  constructor
  · intro h1 h2
    have e1 := exponentialBackoffWithJitter_eq (rand1 r.AttemptNumber) r hN h1.1 h1.2
    have e2 := exponentialBackoffWithJitter_eq (rand2 r.AttemptNumber) r hN h2.1 h2.2
    simp only [DefaultRetryPolicy, NewRetryPolicy]
    rw [e1, e2]
    exact ⟨rfl, rfl⟩
  · intro h1
    simp only [DefaultRetryPolicy, NewRetryPolicy]
    rcases exponentialBackoffWithJitter_whole (rand1 r.AttemptNumber) r hN h1.1 h1.2 with h | h
    · exact Or.inl (by rw [h])
    · exact Or.inr (by rw [h])

/-- C22 amended, at attempt 6 with the jitters 1/4 and 3/4: both durations are 30 seconds. -/
theorem DefaultRetryPolicy_NextDuration_independent_of_draw_witness :
    (DefaultRetryPolicy sampleClassifier (fun _ => 1 / 4)).NextDuration
        (NewOCIOperationResponse (none : Option ListEmailDomainsResponse)
          (some SampleError.timeout) 6) =
      (DefaultRetryPolicy sampleClassifier (fun _ => 3 / 4)).NextDuration
        (NewOCIOperationResponse (none : Option ListEmailDomainsResponse)
          (some SampleError.timeout) 6) ∧
    (DefaultRetryPolicy sampleClassifier (fun _ => 1 / 4)).NextDuration
        (NewOCIOperationResponse (none : Option ListEmailDomainsResponse)
          (some SampleError.timeout) 6) =
      .ok (((min (2 ^ (6 - 1)) 30 : ℕ) : ℤ) * Second) :=
  (DefaultRetryPolicy_NextDuration_independent_of_draw sampleClassifier (fun _ => 1 / 4)
    (fun _ => 3 / 4)
    (NewOCIOperationResponse (none : Option ListEmailDomainsResponse)
      (some SampleError.timeout) 6) (by decide)).1
    ⟨by norm_num, by norm_num⟩ ⟨by norm_num, by norm_num⟩

end Claims

end Common
